import Mathlib

/-!
A verification development for the event-command / query-engine / free-roam
core of the repository.  Python source files are embedded shallowly:

* `app/events/event_commands` is not part of the excerpt (only its callers in
  `app/editor/event_editor/event_properties.py` are), so the line parser and
  the plain-text renderer are modelled from the specification (sections 4.1,
  4.3 and 6 of the spec).  The modelling works at the token level: a source
  line is represented by its list of semicolon-delimited tokens (each token a
  list of characters), which abstracts only the splitting step of section 4.1.
* `app/engine/query_engine.py`, `app/engine/roam_state.py` and
  `app/data/database/items.py` are embedded function by function; external
  collaborators (`game.get_unit`, `game.board`, `target_system`,
  `utils.calculate_distance`, `ICA.restore_component`, ...) are modelled from
  the interface description in section 6 of the spec, either as explicit
  parameters (environments) or as small faithful definitions.
* Python exceptions are represented with `Except PyErr`; Python truthiness of
  optional strings / lists is embedded explicitly where the source relies
  on it.
-/

namespace FE

/-- Python exceptions that the embedded code can raise. -/
inductive PyErr where
  | attributeError
  | typeError
  deriving DecidableEq, Repr

/-! ## Part 1: the event-command grammar, parser and renderer

Modelled from the spec: `app/events/event_commands` is not in the excerpt.
Section 3 of the spec gives the `Command` data model (name, keywords,
optional_keywords, flags, values, active_flags); section 4.1 gives the parse
contract; section 4.3 the catalog helpers and the plain-text renderer. -/

/-- One semicolon-delimited token of a source line. -/
abbrev Token := List Char

/-- Modelled from the spec (section 3, "Command"): a command definition from
the catalog carries its name, required keywords, optional keywords and flags;
a parsed command additionally carries the keyword-to-value mapping actually
supplied (`values`, kept in declared-keyword order) and the flags actually
present (`active_flags`, in the order supplied). Catalog entries are commands
with empty `values` and `active_flags`. -/
structure EventCommand where
  nid : Token
  keywords : List Token
  optional_keywords : List Token
  flags : List Token
  values : List (Token × Token)
  active_flags : List Token
  deriving DecidableEq, Repr

/-- Required keywords before optional keywords, concatenated
(spec section 4.3). -/
def allKeywords (cd : EventCommand) : List Token :=
  cd.keywords ++ cd.optional_keywords

/-- Split a token at its first `=` character, if any
(used for `key=value` arguments, spec section 4.1). -/
def splitFirstEq : Token → Option (Token × Token)
  | [] => none
  | c :: cs =>
    if c = '=' then some ([], cs)
    else (splitFirstEq cs).map (fun p => (c :: p.1, p.2))

/-- Look a keyword up in a raw assignment list (first match wins; new
assignments are pushed at the front, so the first match is the latest). -/
def lookupVal (vals : List (Token × Token)) (k : Token) : Option Token :=
  match vals with
  | [] => none
  | p :: rest => if p.1 = k then some p.2 else lookupVal rest k

/-- The first declared keyword (required before optional) that has not been
assigned yet: the target of the next positional token (spec section 4.1). -/
def firstUnfilled (cd : EventCommand) (vals : List (Token × Token)) :
    Option Token :=
  (allKeywords cd).find? (fun k => (lookupVal vals k).isNone)

/-- Modelled from the spec (section 4.1): assign the argument tokens of a
line, in order.  A token of the form `key=value` whose key is a declared
keyword targets that keyword; otherwise a token equal to a declared flag name
is placed into the active flags; otherwise the token is assigned positionally
to the first unfilled keyword; surplus positional tokens are ignored
("a positional token count exceeding declared keywords+optional_keywords is
not an error"). -/
def assignArgs (cd : EventCommand) :
    List Token → List (Token × Token) → List Token →
    List (Token × Token) × List Token
  | [], vals, fls => (vals, fls)
  | t :: ts, vals, fls =>
    match splitFirstEq t with
    | some (k, v) =>
      if k ∈ allKeywords cd then assignArgs cd ts ((k, v) :: vals) fls
      else if t ∈ cd.flags then assignArgs cd ts vals (fls ++ [t])
      else
        match firstUnfilled cd vals with
        | some kw => assignArgs cd ts ((kw, t) :: vals) fls
        | none => assignArgs cd ts vals fls
    | none =>
      if t ∈ cd.flags then assignArgs cd ts vals (fls ++ [t])
      else
        match firstUnfilled cd vals with
        | some kw => assignArgs cd ts ((kw, t) :: vals) fls
        | none => assignArgs cd ts vals fls

/-- Canonicalize a raw assignment list into declared-keyword order: the
keyword-to-value mapping of the parsed command. -/
def canonValues (cd : EventCommand) (vals : List (Token × Token)) :
    List (Token × Token) :=
  (allKeywords cd).filterMap (fun k => (lookupVal vals k).map (fun v => (k, v)))

/-- Catalog lookup by exact command name (spec section 4.1). -/
def findCommand (catalog : List EventCommand) (t0 : Token) :
    Option EventCommand :=
  catalog.find? (fun cd => cd.nid = t0)

/-- Zero-based index of a keyword among the declared arguments, required
keywords before optional keywords (the `get_index_from_keyword` helper of
spec section 4.3). -/
def idxOfTok : List Token → Token → ℕ
  | [], _ => 0
  | a :: as, k => if a = k then 0 else idxOfTok as k + 1

/-- `get_index_from_keyword` (spec section 4.3). -/
def argIndexOfKeyword (cd : EventCommand) (k : Token) : ℕ :=
  idxOfTok (allKeywords cd) k

/-- Modelled from the spec (section 4.1): strict-mode
`parse_text_to_command`, at token level.  Returns `(command, error_location)`:
an unknown command name gives `(none, some 0)` ("the first token is
invalid"); a missing required keyword gives `(none, some i)` where `i` is the
argument index expected to hold the first missing required keyword; on
success the command is returned with its canonical keyword-to-value mapping
and its active flags, and no error location. -/
def parse_text_to_command (catalog : List EventCommand) (ts : List Token) :
    Option EventCommand × Option ℕ :=
  match ts with
  | [] => (none, some 0)
  | t0 :: rest =>
    match findCommand catalog t0 with
    | none => (none, some 0)
    | some cd =>
      let va := assignArgs cd rest [] []
      match cd.keywords.find? (fun k => (lookupVal va.1 k).isNone) with
      | some k => (none, some (argIndexOfKeyword cd k))
      | none =>
        (some { cd with values := canonValues cd va.1, active_flags := va.2 },
         none)

/-- Modelled from the spec (section 4.3): the plain-text round-trip renderer,
at token level.  The spec specifies the renderer only as "the exact inverse
of the Parser"; rendering every supplied keyword as a `key=value` token (in
declared-keyword order) followed by the active flags realizes this. -/
def to_plain_text (c : EventCommand) : List Token :=
  c.nid :: (c.values.map (fun p => p.1 ++ '=' :: p.2) ++ c.active_flags)

/-- Well-formedness of one catalog entry: declared keywords are distinct and
contain no `=` character (keywords are identifiers). -/
def CmdWF (cd : EventCommand) : Prop :=
  (allKeywords cd).Nodup ∧ ∀ k ∈ allKeywords cd, '=' ∉ k

instance (cd : EventCommand) : Decidable (CmdWF cd) := by
  unfold CmdWF; infer_instance

/-- Result of `EventSyntaxRuleHighlighter.validate_tokens`
(`event_properties.py` lines 141-163): either the sentinel string `all`
(every token flagged broken) or a list of token indices (index 0 is the
command-name token). -/
inductive ValidationResult where
  | all
  | locs (l : List ℕ)
  deriving DecidableEq, Repr

/-- `EventSyntaxRuleHighlighter.validate_tokens` (`event_properties.py`
lines 141-163), over the modelled strict parser.  `vOk keyword value`
models `event_validators.validate(validator, value, level, DB, RESOURCES)
is not None` for the validator attached to `keyword`.  The Python guard
`elif error_loc:` is falsy both for `None` and for the integer `0`, which
the embedding reproduces. -/
def validate_tokens (catalog : List EventCommand)
    (vOk : Token → Token → Bool) (ts : List Token) : ValidationResult :=
  match parse_text_to_command catalog ts with
  | (some cmd, _) =>
    if cmd.keywords.any (fun k => (lookupVal cmd.values k).isNone) then
      ValidationResult.all
    else
      ValidationResult.locs (cmd.values.filterMap (fun p =>
        if vOk p.1 p.2 then none else some (argIndexOfKeyword cmd p.1 + 1)))
  | (none, some l) =>
    if l ≠ 0 then ValidationResult.locs [l + 1] else ValidationResult.locs [0]
  | (none, none) => ValidationResult.locs [0]

/-! ## Part 2: the Query Engine (`app/engine/query_engine.py`)

`GameState` collaborators (`get_unit`, `get_all_units`, `get_player_units`,
`get_convoy_inventory`, team fields) are modelled from the interface list in
spec section 6.  Python's duck-typed references (`_resolve_to_nid` tries
`.uid`, then `.nid`, then returns the input itself) are embedded with the
tagged types `NidVal` and `Ref`; Python's cross-type `==` (an `int` uid
never equals a `str` nid) is reproduced by `NidVal` equality. -/

/-- A value produced by `_resolve_to_nid`: either a catalog nid (a Python
`str`) or an instance uid (a Python `int`). -/
inductive NidVal where
  | n (s : String)
  | u (i : ℕ)
  deriving DecidableEq, Repr

/-- An item instance: catalog identifier `nid` and instance identifier
`uid`. -/
structure ItemObject where
  nid : String
  uid : ℕ
  deriving DecidableEq, Repr

/-- A skill instance. -/
structure SkillObject where
  nid : String
  negative : Bool
  deriving DecidableEq, Repr

/-- A unit.  Modelled from the spec: positions are board coordinates; the
query-engine claims under study do not exercise position-less units. -/
structure UnitObject where
  nid : String
  team : String
  party : String
  tags : List String
  items : List ItemObject
  skills : List SkillObject
  position : ℤ × ℤ
  deriving DecidableEq, Repr

/-- Modelled from the spec (section 6 interface list): the game-state query
surface consumed by the query engine.  `units` is the unit registry (a dict
keyed by nid in the source, hence the `Nodup` well-formedness predicate
below); `convoy` is `get_convoy_inventory()`; `partyConvoy` is
`get_convoy_inventory(get_party(p))`. -/
structure GameState where
  units : List UnitObject
  convoy : List ItemObject
  partyConvoy : String → List ItemObject
  dead : List String

/-- Unit registry nids are distinct (the registry is a dict keyed
by nid). -/
def GameState.WFNids (g : GameState) : Prop :=
  (g.units.map (fun u => u.nid)).Nodup

instance (g : GameState) : Decidable g.WFNids := by
  unfold GameState.WFNids; infer_instance

/-- `game.get_unit(nid)`: registry lookup; `none` when the key does not
resolve (a uid `int` or an unknown `str` finds no unit). -/
def GameState.get_unit (g : GameState) (v : NidVal) : Option UnitObject :=
  g.units.find? (fun u => NidVal.n u.nid = v)

/-- `game.get_all_units()`. -/
def get_all_units (g : GameState) : List UnitObject := g.units

/-- `game.get_all_units_in_party(party)`. -/
def get_all_units_in_party (g : GameState) (p : String) : List UnitObject :=
  g.units.filter (fun u => u.party = p)

/-- `game.get_player_units()`. -/
def get_player_units (g : GameState) : List UnitObject :=
  g.units.filter (fun u => u.team = "player")

/-- A loosely-typed reference, as passed to the query engine: a live item
object, a live unit object, or a plain value (nid string / uid int /
already-resolved value). -/
inductive Ref where
  | obj_item (i : ItemObject)
  | obj_unit (u : UnitObject)
  | val (v : NidVal)
  deriving DecidableEq, Repr

/-- `GameQueryEngine._resolve_to_nid`: try `.uid` (items have one), then
`.nid` (units have one), else return the input unchanged. -/
def resolve_to_nid : Ref → NidVal
  | Ref.obj_item i => NidVal.u i.uid
  | Ref.obj_unit u => NidVal.n u.nid
  | Ref.val v => v

/-- `GameQueryEngine._resolve_to_unit`. -/
def resolve_to_unit (g : GameState) (r : Ref) : Option UnitObject :=
  g.get_unit (resolve_to_nid r)

/-- The item-matching test of `get_item` / `has_item`:
`it.uid == item or it.nid == item` (Python `==`, so an `int` uid never
equals a `str` nid and conversely). -/
def itemMatches (it : ItemObject) (v : NidVal) : Bool :=
  NidVal.u it.uid = v ∨ NidVal.n it.nid = v

/-- `GameQueryEngine.get_item` (`query_engine.py` lines 56-75).  When the
unit reference does not resolve, `_resolve_to_unit` returns `None` and the
source dereferences `unit.items`, raising `AttributeError`. -/
def get_item (g : GameState) (unit item : Ref) :
    Except PyErr (Option ItemObject) :=
  let itemv := resolve_to_nid item
  if unit = Ref.val (NidVal.n "convoy") then
    Except.ok ((g.convoy.filter (fun it => itemMatches it itemv)).head?)
  else
    match resolve_to_unit g unit with
    | none => Except.error PyErr.attributeError
    | some u =>
      Except.ok ((u.items.filter (fun it => itemMatches it itemv)).head?)

/-- Python truthiness of an optional string (`None` and `""` are falsy). -/
def truthyStr : Option String → Bool
  | none => false
  | some s => s ≠ ""

/-- The unit loop of `has_item` (`query_engine.py` lines 106-115). -/
def has_item_loop (g : GameState) (itemv : NidVal)
    (nid team tag : Option String) : List UnitObject → Except PyErr Bool
  | [] => Except.ok false
  | u :: us =>
    if truthyStr nid ∧ ¬nid = some u.nid then
      has_item_loop g itemv nid team tag us
    else if truthyStr team ∧ ¬team = some u.team then
      has_item_loop g itemv nid team tag us
    else if truthyStr tag ∧ ¬(tag.getD "") ∈ u.tags then
      has_item_loop g itemv nid team tag us
    else
      match get_item g (Ref.obj_unit u) (Ref.val itemv) with
      | Except.error e => Except.error e
      | Except.ok r =>
        if r.isSome then Except.ok true else has_item_loop g itemv nid team tag us

/-- `GameQueryEngine.has_item` (`query_engine.py` lines 77-115). -/
def has_item (g : GameState) (item : Ref) (nid team tag party : Option String) :
    Except PyErr Bool :=
  let all_units :=
    if truthyStr party then get_all_units_in_party g (party.getD "")
    else get_all_units g
  let itemv := resolve_to_nid item
  let convoy : Option (List ItemObject) :=
    if ¬truthyStr nid ∨ nid = some "convoy" then
      if nid = some "convoy" ∨ team = some "player" then some g.convoy
      else if truthyStr party then some (g.partyConvoy (party.getD ""))
      else none
    else none
  let convoyHit :=
    match convoy with
    | some l => !l.isEmpty && l.any (fun it => itemMatches it itemv)
    | none => false
  if convoyHit then Except.ok true
  else has_item_loop g itemv nid team tag all_units

/-- `GameQueryEngine.get_skill` (`query_engine.py` lines 117-133). -/
def get_skill (g : GameState) (unit skill : Ref) :
    Except PyErr (Option SkillObject) :=
  match resolve_to_unit g unit with
  | none => Except.error PyErr.attributeError
  | some u =>
    let sv := resolve_to_nid skill
    Except.ok (u.skills.find? (fun sk => NidVal.n sk.nid = sv))

/-- A position-or-reference argument, as taken by `_resolve_pos`. -/
inductive PosRef where
  | ref (r : Ref)
  | coord (p : ℤ × ℤ)
  deriving DecidableEq, Repr

/-- `GameQueryEngine._resolve_pos`: try to resolve the argument as a unit
and take its position; any failure (`None.position` raises) is caught and
the original argument is returned. -/
def resolve_pos (g : GameState) : PosRef → PosRef
  | PosRef.ref r =>
    match resolve_to_unit g r with
    | some u => PosRef.coord u.position
    | none => PosRef.ref r
  | PosRef.coord p => PosRef.coord p

/-- Modelled from the spec (sections 4.5 and 6, glossary "Mcost"):
`utils.calculate_distance` is the engine's grid metric, embedded as
Manhattan distance. -/
def calculate_distance (a b : ℤ × ℤ) : ℕ :=
  (a.1 - b.1).natAbs + (a.2 - b.2).natAbs

/-- The `(unit, distance)` comprehension of `get_closest_allies`. -/
def allyDistPairs (g : GameState) (q : ℤ × ℤ) : List (UnitObject × ℕ) :=
  (get_player_units g).map (fun u => (u, calculate_distance u.position q))

/-- `GameQueryEngine.get_closest_allies` (`query_engine.py` lines 149-163).
Python's `sorted` with a key is a stable sort, embedded with
`List.insertionSort` on the distance component.  When the position argument
fails to resolve to a position and at least one player unit exists,
`calculate_distance` receives a non-position and raises `TypeError`. -/
def get_closest_allies (g : GameState) (p : PosRef) (num : ℕ) :
    Except PyErr (List (UnitObject × ℕ)) :=
  match resolve_pos g p with
  | PosRef.coord q =>
    Except.ok
      ((List.insertionSort (fun a b => a.2 ≤ b.2) (allyDistPairs g q)).take num)
  | PosRef.ref _ =>
    if get_player_units g = [] then Except.ok []
    else Except.error PyErr.typeError

/-- `GameQueryEngine.get_units_in_area` (`query_engine.py` lines 180-203):
swap the corner coordinates into order, then keep units whose positions lie
within the inclusive bounds. -/
def get_units_in_area (g : GameState) (p1 p2 : ℤ × ℤ) : List UnitObject :=
  let xs := if p1.1 > p2.1 then (p2.1, p1.1) else (p1.1, p2.1)
  let ys := if p1.2 > p2.2 then (p2.2, p1.2) else (p1.2, p2.2)
  g.units.filter (fun u =>
    decide (xs.1 ≤ u.position.1) && decide (u.position.1 ≤ xs.2) &&
    decide (ys.1 ≤ u.position.2) && decide (u.position.2 ≤ ys.2))

/-! ## Part 3: the free-roam state machine (`app/engine/roam_state.py`)

The movement phase of `FreeRoamState.take_input` (lines 70-142: direction
accumulators, passability, speed and position integration) is embedded as
`takeInputMove`; the region-interrupt scan (lines 144-154) as `regionScan`;
`rationalize` / `rationalize_unit` (lines 252-281) as functions over an
explicit board.  Positions are embedded as rationals (the source uses
Python floats; the claims under study are conditional on the movement-cost
and occupancy of the checked tile, so they do not depend on rounding of
inexact binary floats).  `game.board`, `game.movement.get_mcost`,
`utils.compare_teams`, `target_system.get_nearest_open_tile` and the input
manager are modelled from the spec section 6 interface list as explicit
environment fields. -/

/-- Python `round` on a rational: round-half-to-even, computed on the
reduced numerator and denominator (`Int.ediv n d` is the floor since the
denominator is positive; `r2` compares twice the fractional remainder
against the denominator). -/
def pyRound (q : ℚ) : ℤ :=
  let n := q.num
  let d := (q.den : ℤ)
  let f := Int.ediv n d
  let r2 := 2 * (n - f * d)
  if r2 < d then f
  else if d < r2 then f + 1
  else if Even f then f else f + 1

/-- Python `int` on a rational: truncation toward zero (`Int.tdiv` rounds
toward zero). -/
def pyTrunc (q : ℚ) : ℤ :=
  Int.tdiv q.num (q.den : ℤ)

/-- The environment of the movement phase: held inputs, the `_roam_speed`
game variable, board bounds, and the passability/occupancy collaborators. -/
structure RoamEnv where
  pressed : String → Bool
  justPressed : String → Bool
  roamSpeedVar : ℚ
  bounds : ℤ × ℤ × ℤ × ℤ
  mcost : ℤ × ℤ → ℕ
  boardUnit : ℤ × ℤ → Option ℕ
  boardTeam : ℤ × ℤ → Option String
  compareTeams : String → String → Bool

/-- The roam unit's transient movement state (spec section 3,
"Roam Unit State"). -/
structure RoamMoveState where
  pos : ℚ × ℚ
  speed : ℚ
  dir : ℤ × ℤ
  team : String

/-- The tile whose movement cost and occupancy `can_move` checks for a
direction: the current position offset by the 0.4 tolerance on the axis of
travel, rounded (`roam_state.py` lines 217-238). -/
def checkTile (s : RoamMoveState) (d : String) : ℤ × ℤ :=
  if d = "LEFT" then (pyRound (s.pos.1 - 0.4), pyRound s.pos.2)
  else if d = "RIGHT" then (pyRound (s.pos.1 + 0.4), pyRound s.pos.2)
  else if d = "UP" then (pyRound s.pos.1, pyRound (s.pos.2 - 0.4))
  else if d = "DOWN" then (pyRound s.pos.1, pyRound (s.pos.2 + 0.4))
  else (0, 0)

/-- `FreeRoamState.no_bumps` (`roam_state.py` lines 241-250): an occupied
tile passes only when the occupant team is falsy or friendly. -/
def no_bumps (e : RoamEnv) (s : RoamMoveState) (x y : ℤ) : Bool :=
  match e.boardUnit (x, y) with
  | some _ =>
    match e.boardTeam (x, y) with
    | none => true
    | some t => if t = "" then true else e.compareTeams s.team t
  | none => true

/-- `FreeRoamState.can_move` (`roam_state.py` lines 217-239). -/
def can_move (e : RoamEnv) (s : RoamMoveState) (d : String) : Bool :=
  if d = "LEFT" ∨ d = "RIGHT" ∨ d = "UP" ∨ d = "DOWN" then
    let t := checkTile s d
    decide (e.mcost t < 99) && no_bumps e s t.1 t.2
  else true

/-- The direction-accumulator update of `take_input`
(`roam_state.py` lines 80-106). -/
def dirUpdate (e : RoamEnv) (s : RoamMoveState) : ℤ × ℤ :=
  let h0 :=
    if (e.pressed "LEFT" || e.justPressed "LEFT") &&
        decide ((e.bounds.1 : ℚ) < s.pos.1) then (-5 : ℤ)
    else if (e.pressed "RIGHT" || e.justPressed "RIGHT") &&
        decide (s.pos.1 < (e.bounds.2.2.1 : ℚ)) then 5
    else s.dir.1
  let h1 := if !e.pressed "RIGHT" && decide (0 < h0) then h0 - 1 else h0
  let h2 := if !e.pressed "LEFT" && decide (h1 < 0) then h1 + 1 else h1
  let v0 :=
    if (e.pressed "UP" || e.justPressed "UP") &&
        decide ((e.bounds.2.1 : ℚ) < s.pos.2) then (-5 : ℤ)
    else if (e.pressed "DOWN" || e.justPressed "DOWN") &&
        decide (s.pos.2 < (e.bounds.2.2.2 : ℚ)) then 5
    else s.dir.2
  let v1 := if !e.pressed "DOWN" && decide (0 < v0) then v0 - 1 else v0
  let v2 := if !e.pressed "UP" && decide (v1 < 0) then v1 + 1 else v1
  (h2, v2)

/-- The horizontal/vertical speed assignment of `take_input`
(`roam_state.py` lines 108-122), computed from the updated direction pair
and the current speed. -/
def hvOf (e : RoamEnv) (s : RoamMoveState) (d : ℤ × ℤ) : ℚ × ℚ :=
  (if 0 < d.1 ∧ can_move e s "RIGHT" = true then s.speed
   else if d.1 < 0 ∧ can_move e s "LEFT" = true then -s.speed
   else 0,
   if 0 < d.2 ∧ can_move e s "DOWN" = true then s.speed
   else if d.2 < 0 ∧ can_move e s "UP" = true then -s.speed
   else 0)

/-- `base_speed` of `take_input` (0.008). -/
def baseRoamSpeed : ℚ := 0.008

/-- The position update of `take_input` (`roam_state.py` lines 124-129
and `move`, lines 203-215): the unit moves only when one component of the
velocity exceeds `base_speed` in magnitude. -/
def newRoamPos (s : RoamMoveState) (hv : ℚ × ℚ) : ℚ × ℚ :=
  if baseRoamSpeed < |hv.1| ∨ baseRoamSpeed < |hv.2| then
    (s.pos.1 + hv.1, s.pos.2 + hv.2)
  else s.pos

/-- `max_speed` of `take_input` (`roam_state.py` lines 75-78): boosted by
the run (`BACK`) modifier, scaled by the `_roam_speed` game variable. -/
def maxRoamSpeed (e : RoamEnv) : ℚ :=
  if e.pressed "BACK" then 0.15 * e.roamSpeedVar else 0.1 * e.roamSpeedVar

/-- The speed-accumulator update of `take_input`
(`roam_state.py` lines 133-142). -/
def speedUpdate (e : RoamEnv) (speed : ℚ) : ℚ :=
  let anyDir :=
    ["LEFT", "RIGHT", "UP", "DOWN"].any (fun d => e.justPressed d) ||
    ["LEFT", "RIGHT", "UP", "DOWN"].any (fun d => e.pressed d)
  if anyDir then
    if speed < maxRoamSpeed e ∧ e.pressed "BACK" = true then speed + 0.01
    else if speed < maxRoamSpeed e then speed + 0.008
    else if maxRoamSpeed e < speed then speed - 0.01
    else speed
  else if 0.008 ≤ speed ∨ maxRoamSpeed e < speed then speed - 0.01
  else speed

/-- The movement phase of `FreeRoamState.take_input`
(`roam_state.py` lines 70-142): update the direction accumulators, assign
axis speeds gated by `can_move`, integrate the position, then update the
speed accumulator (the source updates `self.speed` after moving). -/
def takeInputMove (e : RoamEnv) (s : RoamMoveState) : RoamMoveState :=
  let d := dirUpdate e s
  let hv := hvOf e s d
  { s with pos := newRoamPos s hv, dir := d, speed := speedUpdate e s.speed }

/-! ### Rationalization and the region-interrupt scan -/

/-- A unit participating in roam bookkeeping: its id and fractional
position. -/
structure RoamUnitSt where
  id : ℕ
  pos : ℚ × ℚ
  deriving DecidableEq, Repr

/-- Board occupancy: the id of the unit standing on a tile, if any
(`game.board.get_unit`). -/
abbrev RoamBoard := ℤ × ℤ → Option ℕ

/-- `game.arrive(unit)` after the unit's position was set to `p`: the unit
is registered on the board at `p` (modelled from the spec section 6
"board occupancy by position"). -/
def arrive (b : RoamBoard) (uid : ℕ) (p : ℤ × ℤ) : RoamBoard :=
  fun q => if q = p then some uid else b q

/-- Modelled from the spec: `target_system.get_nearest_open_tile(unit, pos)`
is not in the excerpt; it is kept as an environment function (the unit whose
passability is consulted, the current board, the starting tile), and the
theorems carry the openness facts they need about the calls actually
made. -/
structure RatEnv where
  nearestOpen : ℕ → RoamBoard → ℤ × ℤ → ℤ × ℤ

/-- The state read and written by `rationalize`: the roam unit, the
AI-handler target units, and the board. -/
structure RatState where
  roam : RoamUnitSt
  targets : List RoamUnitSt
  board : RoamBoard

/-- The result of `rationalize`: the tile the roam unit was placed on, the
final board, and the rationalized AI target units. -/
structure RatResult where
  placed : ℤ × ℤ
  board : RoamBoard
  targets : List RoamUnitSt

/-- `FreeRoamState.rationalize_unit` (`roam_state.py` lines 275-281):
truncate the unit's position; if the tile is occupied by some other unit,
relocate to the nearest open tile; set the position and arrive. -/
def rationalize_unit (env : RatEnv) (b : RoamBoard) (u : RoamUnitSt) :
    RoamUnitSt × RoamBoard :=
  let np0 := (pyTrunc u.pos.1, pyTrunc u.pos.2)
  let np :=
    match b np0 with
    | some occ => if occ ≠ u.id then env.nearestOpen u.id b np0 else np0
    | none => np0
  (⟨u.id, ((np.1 : ℚ), (np.2 : ℚ))⟩, arrive b u.id np)

/-- `FreeRoamState.rationalize` (`roam_state.py` lines 252-273): round the
roam unit's position; if that tile is occupied, relocate to the nearest open
tile; set the position, arrive, then rationalize every AI target unit in
order. -/
def rationalize (env : RatEnv) (s : RatState) : RatResult :=
  let rp := (pyRound s.roam.pos.1, pyRound s.roam.pos.2)
  let np :=
    match s.board rp with
    | some _ => env.nearestOpen s.roam.id s.board rp
    | none => rp
  let b1 := arrive s.board s.roam.id np
  let f := s.targets.foldl
    (fun (acc : List RoamUnitSt × RoamBoard) (u : RoamUnitSt) =>
      let r := rationalize_unit env acc.2 u
      (acc.1 ++ [r.1], r.2))
    ([], b1)
  ⟨np, f.2, f.1⟩

/-- A region as seen by the roam scan (`app/events/regions` is summarized in
spec section 3, "Region"): membership test, the `interrupt_move` type flag,
and the "only once" flag. -/
structure EventRegion where
  nid : String
  contains : ℤ × ℤ → Bool
  interrupt_move : Bool
  only_once : Bool

/-- The environment of the region scan: the nearest-open-tile collaborator
and the trigger outcome oracle (`game.events.trigger` returning
`did_trigger`, keyed here by the region identifier and the position passed
along). -/
structure ScanEnv where
  rat : RatEnv
  trigger : String → ℚ × ℚ → Bool

/-- The state threaded through the region-interrupt scan of `take_input`
(`roam_state.py` lines 144-154): the local `rounded_position` variable, the
roam unit (`None` after an in-loop `rationalize`), the AI targets, the
board, the record of trigger invocations (region id and the position
argument passed), and the regions removed. -/
structure ScanState where
  rounded : ℤ × ℤ
  roam : Option RoamUnitSt
  targets : List RoamUnitSt
  board : RoamBoard
  fired : List (String × (ℚ × ℚ))
  removed : List String

/-- One iteration of the region-interrupt scan (`roam_state.py` lines
144-154).  When the rounded position lies in an `interrupt_move` region and
the tile has an occupant, the source computes the occupant's nearest open
tile and assigns it to the ROAM unit's position (the occupant itself is not
moved); then the trigger fires with the roam unit's (possibly relocated)
position; a successful trigger rationalizes, and an only-once region that
fired is removed.  Accessing `self.roam_unit.position` after an in-loop
`rationalize` set `self.roam_unit = None` raises `AttributeError`. -/
def regionScanStep (env : ScanEnv) (st : ScanState) (r : EventRegion) :
    Except PyErr ScanState :=
  if r.contains st.rounded && r.interrupt_move then
    let occStep : Except PyErr ScanState :=
      match st.board st.rounded with
      | some occ =>
        let t := env.rat.nearestOpen occ st.board st.rounded
        match st.roam with
        | none => Except.error PyErr.attributeError
        | some ru =>
          Except.ok { st with rounded := t,
                              roam := some ⟨ru.id, ((t.1 : ℚ), (t.2 : ℚ))⟩ }
      | none => Except.ok st
    match occStep with
    | Except.error e => Except.error e
    | Except.ok st1 =>
      match st1.roam with
      | none => Except.error PyErr.attributeError
      | some ru =>
        let did := env.trigger r.nid ru.pos
        let st2 := { st1 with fired := st1.fired ++ [(r.nid, ru.pos)] }
        let st3 :=
          if did then
            let res := rationalize env.rat ⟨ru, st2.targets, st2.board⟩
            { st2 with roam := none, board := res.board,
                       targets := res.targets }
          else st2
        Except.ok
          (if r.only_once && did then
            { st3 with removed := st3.removed ++ [r.nid] }
          else st3)
  else Except.ok st

/-- The region-interrupt scan of `take_input` (`roam_state.py` lines
144-154): fold `regionScanStep` over the level's regions in order. -/
def regionScan (env : ScanEnv) :
    List EventRegion → ScanState → Except PyErr ScanState
  | [], st => Except.ok st
  | r :: rs, st =>
    match regionScanStep env st r with
    | Except.error e => Except.error e
    | Except.ok st1 => regionScan env rs st1

/-! ## Part 4: `ItemPrefab.restore` (`app/data/database/items.py`)

`ICA.restore_component` is not in the excerpt and is kept as an environment
function returning `Option` (a falsy result models a failed restoration);
the backwards-compatibility pairing step is modelled from spec design note
"Backward-compatibility component auto-pairing on load": for each restored
component declaring paired components, a default instance is synthesized for
any missing pair (`synth_paired`). -/

/-- An item component: identifier, payload value, and the paired-component
declarations used by the backwards-compatibility step. -/
structure ItemComponent where
  nid : String
  value : ℤ
  paired_with : List String
  deriving DecidableEq, Repr

/-- The component-access environment (`ICA`): restoration of a saved
`(nid, value)` pair, which may fail, and default synthesis of a paired
component (modelled from the spec, design note on component
auto-pairing). -/
structure ICAEnv where
  restore_component : String × ℤ → Option ItemComponent
  synth_paired : String → ItemComponent

/-- A restored item prefab. -/
structure ItemPrefabR where
  nid : String
  name : String
  desc : String
  components : List ItemComponent
  deriving Repr

/-- `ItemPrefab.restore` (`items.py` lines 52-73): restore every saved
component, silently drop the falsy (failed) ones, then append a synthesized
default for every declared paired component not present among the restored
ones. -/
def item_restore (env : ICAEnv) (dnid dname ddesc : String)
    (dcomponents : List (String × ℤ)) : ItemPrefabR :=
  let components := (dcomponents.map env.restore_component).filterMap id
  let all_components := components.foldl
    (fun acc c =>
      let acc1 := acc ++ [c]
      c.paired_with.foldl
        (fun acc2 pnid =>
          if components.any (fun c2 => pnid = c2.nid) then acc2
          else acc2 ++ [env.synth_paired pnid])
        acc1)
    []
  ⟨dnid, dname, ddesc, all_components⟩

/-! ## Auxiliary predicates, instances and concrete test data -/

/-- Shorthand: the token of a string. -/
def tk (s : String) : Token := s.toList

/-- A token that the argument-assignment loop files as a flag: it is a
declared flag and it is not a `key=value` form targeting a declared
keyword. -/
def FlagTok (cd : EventCommand) (t : Token) : Prop :=
  t ∈ cd.flags ∧ ∀ k v, splitFirstEq t = some (k, v) → k ∉ allKeywords cd

instance : IsTotal (UnitObject × ℕ) (fun a b => a.2 ≤ b.2) :=
  ⟨fun a b => Nat.le_total a.2 b.2⟩

instance : IsTrans (UnitObject × ℕ) (fun a b => a.2 ≤ b.2) :=
  ⟨fun _ _ _ => Nat.le_trans⟩

/-- An empty game state: no units, no convoy. -/
def emptyGame : GameState := ⟨[], [], fun _ => [], []⟩

/-- A small concrete game state used to instantiate the query-engine
theorems. -/
def gameW : GameState :=
  ⟨[⟨"eirika", "player", "main", ["Lord"], [⟨"rapier", 11⟩], [], (1, 1)⟩,
    ⟨"seth", "player", "main", [], [], [⟨"canto", false⟩], (4, 1)⟩,
    ⟨"ogre", "enemy", "foe", [], [⟨"axe", 23⟩], [], (2, 2)⟩],
   [⟨"elixir", 40⟩], fun _ => [], []⟩

/-- A catalog with one `speak`-like command, used to instantiate the parser
theorems. -/
def catW : List EventCommand :=
  [⟨tk "speak", [tk "speaker", tk "text"], [tk "style"], [tk "FLAG"], [], []⟩]

/-- The command produced by parsing `speak;eirika;text=hi;FLAG` against
`catW`. -/
def cmdW : EventCommand :=
  ⟨tk "speak", [tk "speaker", tk "text"], [tk "style"], [tk "FLAG"],
   [(tk "speaker", tk "eirika"), (tk "text", tk "hi")], [tk "FLAG"]⟩

/-- A catalog with one command `foo` whose single required keyword `a` sits
at argument index 0, used for the missing-keyword sentinel behaviour. -/
def cat0 : List EventCommand :=
  [⟨tk "foo", [tk "a"], [], [], [], []⟩]

/-- A concrete roam-movement environment: `RIGHT` and `DOWN` held, every
tile impassable (mcost 99) and occupied by a hostile unit (id 9, team
`enemy`). -/
def roamEnvW : RoamEnv :=
  ⟨fun d => d = "RIGHT" || d = "DOWN", fun _ => false, 1, (0, 0, 10, 10),
   fun _ => 99, fun _ => some 9, fun _ => some "enemy", fun a b => a = b⟩

/-- A variant of `roamEnvW` where every tile's occupant is friendly (team
`player`). -/
def roamEnvW2 : RoamEnv :=
  ⟨fun d => d = "RIGHT" || d = "DOWN", fun _ => false, 1, (0, 0, 10, 10),
   fun _ => 99, fun _ => some 9, fun _ => some "player", fun a b => a = b⟩

/-- A concrete roam-movement state sitting at tile `(2, 2)`. -/
def roamStateW : RoamMoveState := ⟨(2, 2), 0, (0, 0), "player"⟩

/-- A concrete rationalization environment whose nearest-open-tile
collaborator always answers `(3, 0)`. -/
def ratEnvW : RatEnv := ⟨fun _ _ _ => (3, 0)⟩

/-- A concrete rationalization state: the roam unit at `(2, 0)`, that tile
occupied by unit 7, tile `(3, 0)` free. -/
def ratStateW : RatState :=
  ⟨⟨1, (2, 0)⟩, [], fun p => if p = (2, 0) then some 7 else none⟩

/-- The board of the region-interrupt scenario: unit 7 stands on `(2, 2)`,
everything else free. -/
def cxBoard : RoamBoard := fun p => if p = (2, 2) then some 7 else none

/-- The environment of the region-interrupt scenario: nearest open tile
`(3, 2)`, every trigger fires. -/
def cxEnv : ScanEnv := ⟨⟨fun _ _ _ => (3, 2)⟩, fun _ _ => true⟩

/-- An only-once `interrupt_move` region covering tile `(2, 2)`. -/
def cxRegion : EventRegion := ⟨"intr", fun p => p = (2, 2), true, true⟩

/-- The scan state of the region-interrupt scenario: the roam unit (id 1)
stands on the occupied tile `(2, 2)`. -/
def cxScanState : ScanState :=
  ⟨(2, 2), some ⟨1, (2, 2)⟩, [], cxBoard, [], []⟩

/-- A component-access environment that restores every saved pair
verbatim. -/
def icaEnvId : ICAEnv :=
  ⟨fun sv => some ⟨sv.1, sv.2, []⟩, fun p => ⟨p, 0, []⟩⟩

/-! # Theorems -/

/-! ## C7: units-in-rectangle, corner order invariance -/

theorem ifSwap_eq (a b : ℤ) :
    (if a > b then (b, a) else (a, b)) = (min a b, max a b) := by
  rcases le_or_lt a b with h | h
  · rw [if_neg (not_lt.mpr h)]
    simp [min_eq_left h, max_eq_right h]
  · rw [if_pos h]
    simp [min_eq_right h.le, max_eq_left h.le]

theorem units_area_eq (g : GameState) (p1 p2 : ℤ × ℤ) :
    get_units_in_area g p1 p2 = g.units.filter (fun u =>
      decide (min p1.1 p2.1 ≤ u.position.1) &&
      decide (u.position.1 ≤ max p1.1 p2.1) &&
      decide (min p1.2 p2.2 ≤ u.position.2) &&
      decide (u.position.2 ≤ max p1.2 p2.2)) := by
  simp only [get_units_in_area, ifSwap_eq]

/-- C7: `get_units_in_area` returns the same list for the two corner orders,
and its members are exactly the units whose positions lie within the
inclusive bounds of the rectangle spanned by the corners. -/
theorem get_units_in_area_corner_invariance (g : GameState) (p1 p2 : ℤ × ℤ) :
    get_units_in_area g p1 p2 = get_units_in_area g p2 p1 ∧
    ∀ u : UnitObject, u ∈ get_units_in_area g p1 p2 ↔
      u ∈ g.units ∧ min p1.1 p2.1 ≤ u.position.1 ∧
        u.position.1 ≤ max p1.1 p2.1 ∧ min p1.2 p2.2 ≤ u.position.2 ∧
        u.position.2 ≤ max p1.2 p2.2 := by
  constructor
  · rw [units_area_eq g p1 p2, units_area_eq g p2 p1,
      min_comm p2.1 p1.1, max_comm p2.1 p1.1,
      min_comm p2.2 p1.2, max_comm p2.2 p1.2]
  · intro u
    rw [units_area_eq g p1 p2]
    simp [List.mem_filter, and_assoc]

/-! ## C2: an unresolvable unit reference makes `get_item` raise -/

/-- C2 (refutation of never-raises): `get_item` with a unit reference that
does not resolve to an existing unit evaluates `unit.items` on `None` and
raises `AttributeError` instead of returning `None`. -/
theorem get_item_unknown_unit_raises :
    get_item emptyGame (Ref.val (NidVal.n "ghost")) (Ref.val (NidVal.n "X")) =
      Except.error PyErr.attributeError := by
  rfl

/-! ## C10: `ItemPrefab.restore` silently drops failed components -/

theorem mem_pairedFold {cond : String → Bool} {synth : String → ItemComponent} :
    ∀ (l : List String) (acc : List ItemComponent) (x : ItemComponent),
      x ∈ l.foldl (fun a p => if cond p then a else a ++ [synth p]) acc →
      x ∈ acc ∨ ∃ p, x = synth p := by
  intro l
  induction l with
  | nil => intro acc x h; exact Or.inl h
  | cons p ps ih =>
    intro acc x h
    rw [List.foldl_cons] at h
    rcases ih _ x h with h1 | h2
    · by_cases hc : cond p
      · rw [if_pos hc] at h1; exact Or.inl h1
      · rw [if_neg hc] at h1
        rcases List.mem_append.mp h1 with h3 | h4
        · exact Or.inl h3
        · exact Or.inr ⟨p, List.mem_singleton.mp h4⟩
    · exact Or.inr h2

theorem mem_restoreFold {cond : String → Bool} {synth : String → ItemComponent} :
    ∀ (l : List ItemComponent) (acc : List ItemComponent) (x : ItemComponent),
      x ∈ l.foldl (fun acc c =>
        c.paired_with.foldl
          (fun a p => if cond p then a else a ++ [synth p]) (acc ++ [c])) acc →
      x ∈ acc ∨ x ∈ l ∨ ∃ p, x = synth p := by
  intro l
  induction l with
  | nil => intro acc x h; exact Or.inl h
  | cons c cs ih =>
    intro acc x h
    rw [List.foldl_cons] at h
    rcases ih _ x h with h1 | h2 | h3
    · rcases mem_pairedFold _ _ _ h1 with h4 | h5
      · rcases List.mem_append.mp h4 with h6 | h7
        · exact Or.inl h6
        · exact Or.inr (Or.inl (by simp [List.mem_singleton.mp h7]))
      · exact Or.inr (Or.inr h5)
    · exact Or.inr (Or.inl (List.mem_cons_of_mem _ h2))
    · exact Or.inr (Or.inr h3)

/-- C10: every component of a restored item is either the successful
restoration of a saved component or a synthesized paired default — a saved
component whose restoration fails is silently omitted — and there is saved
data whose restored item carries fewer components than were saved. -/
theorem item_restore_drops_failures :
    (∀ (env : ICAEnv) (dn dm dd : String) (comps : List (String × ℤ))
        (c : ItemComponent),
      c ∈ (item_restore env dn dm dd comps).components →
      (∃ sv ∈ comps, env.restore_component sv = some c) ∨
        ∃ p, c = env.synth_paired p) ∧
    (∃ (env : ICAEnv) (dn dm dd : String) (comps : List (String × ℤ)),
      (item_restore env dn dm dd comps).components.length < comps.length) := by
  constructor
  · intro env dn dm dd comps c hc
    simp only [item_restore] at hc
    rcases mem_restoreFold _ _ _ hc with h1 | h2 | h3
    · exact absurd h1 (List.not_mem_nil c)
    · left
      rcases List.mem_filterMap.mp h2 with ⟨o, ho, hoc⟩
      rcases List.mem_map.mp ho with ⟨sv, hsv, hrest⟩
      exact ⟨sv, hsv, by rw [hrest]; exact hoc⟩
    · exact Or.inr h3
  · exact ⟨⟨fun _ => none, fun p => ⟨p, 0, []⟩⟩, "", "", "", [("a", 0)],
      by decide⟩

/-- C10 witness: a concretely restored component is accounted for by the
first disjunct. -/
theorem item_restore_drops_failures_witness :
    (∃ sv ∈ [(("dmg" : String), (5 : ℤ))],
        icaEnvId.restore_component sv = some ⟨"dmg", 5, []⟩) ∨
      ∃ p, (⟨"dmg", 5, []⟩ : ItemComponent) = icaEnvId.synth_paired p :=
  item_restore_drops_failures.1 icaEnvId "I" "I" "" [("dmg", 5)]
    ⟨"dmg", 5, []⟩ (by decide)

/-! ## C4: rationalization places the roam unit on an unoccupied tile -/

/-- C4: `rationalize` places the roam unit at its rounded position when that
tile is free and at the nearest open tile otherwise; the chosen tile is
unoccupied beforehand; and (with no AI roamers active) the unit is
registered on the board there by `arrive`. -/
theorem rationalize_places_on_open_tile (env : RatEnv) (s : RatState)
    (hopen : ∀ occ,
      s.board (pyRound s.roam.pos.1, pyRound s.roam.pos.2) = some occ →
      s.board (env.nearestOpen s.roam.id s.board
        (pyRound s.roam.pos.1, pyRound s.roam.pos.2)) = none) :
    s.board (rationalize env s).placed = none ∧
    (rationalize env s).placed =
      (if s.board (pyRound s.roam.pos.1, pyRound s.roam.pos.2) = none then
        (pyRound s.roam.pos.1, pyRound s.roam.pos.2)
      else env.nearestOpen s.roam.id s.board
        (pyRound s.roam.pos.1, pyRound s.roam.pos.2)) ∧
    (s.targets = [] →
      (rationalize env s).board (rationalize env s).placed = some s.roam.id) := by
  cases hb : s.board (pyRound s.roam.pos.1, pyRound s.roam.pos.2) with
  | none =>
    refine ⟨?_, ?_, ?_⟩
    · simp only [rationalize, hb]
    · simp [rationalize, hb]
    · intro ht
      simp [rationalize, hb, ht, arrive]
  | some occ =>
    refine ⟨?_, ?_, ?_⟩
    · simp only [rationalize, hb]
      exact hopen occ hb
    · simp [rationalize, hb]
    · intro ht
      simp [rationalize, hb, ht, arrive]

/-- C4 witness: in the concrete scenario the rounded tile `(2, 0)` is
occupied, so the unit is placed at the open tile `(3, 0)` and registered
there. -/
theorem rationalize_places_on_open_tile_witness :
    ratStateW.board (rationalize ratEnvW ratStateW).placed = none ∧
    (rationalize ratEnvW ratStateW).placed = (3, 0) ∧
    (rationalize ratEnvW ratStateW).board (3, 0) = some 1 := by
  have h := rationalize_places_on_open_tile ratEnvW ratStateW
    (by intro occ _; decide)
  have hplaced : (rationalize ratEnvW ratStateW).placed = ((3 : ℤ), (0 : ℤ)) := by
    rw [h.2.1]; decide
  refine ⟨h.1, hplaced, ?_⟩
  have h3 := h.2.2 (by decide)
  rw [hplaced] at h3
  exact h3

/-! ## C5: `has_item` with `team="player"` -/

theorem find_nid_self :
    ∀ l : List UnitObject, (l.map (fun u => u.nid)).Nodup →
      ∀ u ∈ l, l.find? (fun w => NidVal.n w.nid = NidVal.n u.nid) = some u := by
  intro l
  induction l with
  | nil => intro _ u hu; exact absurd hu (List.not_mem_nil u)
  | cons w ws ih =>
    intro hnd u hu
    rw [List.map_cons, List.nodup_cons] at hnd
    rcases List.mem_cons.mp hu with rfl | hmem
    · rw [List.find?_cons_of_pos _ (by simp)]
    · have hne : w.nid ≠ u.nid := by
        intro he
        exact hnd.1 (he ▸ List.mem_map_of_mem (fun u => u.nid) hmem)
      rw [List.find?_cons_of_neg _ (by simp [hne])]
      exact ih hnd.2 u hmem

theorem get_unit_self (g : GameState) (hwf : g.WFNids) (u : UnitObject)
    (hu : u ∈ g.units) : g.get_unit (NidVal.n u.nid) = some u :=
  find_nid_self g.units hwf u hu

theorem get_item_obj_unit (g : GameState) (hwf : g.WFNids) (u : UnitObject)
    (hu : u ∈ g.units) (v : NidVal) :
    get_item g (Ref.obj_unit u) (Ref.val v) =
      Except.ok ((u.items.filter (fun it => itemMatches it v)).head?) := by
  simp only [get_item, resolve_to_unit, resolve_to_nid]
  rw [if_neg (by simp)]
  rw [get_unit_self g hwf u hu]

theorem filter_head_isSome {α : Type} (p : α → Bool) (l : List α) :
    ((l.filter p).head?).isSome = true ↔ ∃ x ∈ l, p x = true := by
  induction l with
  | nil => simp
  | cons a l ih =>
    by_cases hp : p a
    · simp [List.filter_cons, hp]
    · simp [List.filter_cons, hp, ih]

theorem itemMatches_iff (it : ItemObject) (v : NidVal) :
    itemMatches it v = true ↔ (NidVal.u it.uid = v ∨ NidVal.n it.nid = v) := by
  simp [itemMatches]

theorem has_item_loop_player_iff (g : GameState) (hwf : g.WFNids)
    (itemv : NidVal) :
    ∀ l : List UnitObject, (∀ u ∈ l, u ∈ g.units) →
      (has_item_loop g itemv none (some "player") none l = Except.ok true ↔
        ∃ u ∈ l, u.team = "player" ∧
          ∃ it ∈ u.items, itemMatches it itemv = true) := by
  intro l
  induction l with
  | nil => intro _; simp [has_item_loop]
  | cons u us ih =>
    intro hsub
    have hu : u ∈ g.units := hsub u (List.mem_cons_self u us)
    have hsub' : ∀ w ∈ us, w ∈ g.units := fun w hw =>
      hsub w (List.mem_cons_of_mem u hw)
    rw [has_item_loop]
    rw [if_neg (by simp [truthyStr])]
    by_cases hteam : u.team = "player"
    · rw [if_neg (by simp [truthyStr, hteam])]
      rw [if_neg (by simp [truthyStr])]
      rw [get_item_obj_unit g hwf u hu itemv]
      show (if ((u.items.filter (fun it => itemMatches it itemv)).head?).isSome = true
        then Except.ok true else has_item_loop g itemv none (some "player") none us) =
          Except.ok true ↔ _
      by_cases hit : ∃ it ∈ u.items, itemMatches it itemv = true
      · rw [if_pos ((filter_head_isSome _ _).mpr hit)]
        exact iff_of_true rfl ⟨u, List.mem_cons_self u us, hteam, hit⟩
      · rw [if_neg (fun hcontra => hit ((filter_head_isSome _ _).mp hcontra))]
        rw [ih hsub']
        constructor
        · rintro ⟨w, hw, hrest⟩
          exact ⟨w, List.mem_cons_of_mem u hw, hrest⟩
        · rintro ⟨w, hw, hrest⟩
          rcases List.mem_cons.mp hw with rfl | hwm
          · exact absurd hrest.2 hit
          · exact ⟨w, hwm, hrest⟩
    · rw [if_pos (by simp [truthyStr]; exact fun he => absurd he.symm hteam)]
      rw [ih hsub']
      constructor
      · rintro ⟨w, hw, hrest⟩
        exact ⟨w, List.mem_cons_of_mem u hw, hrest⟩
      · rintro ⟨w, hw, hrest⟩
        rcases List.mem_cons.mp hw with rfl | hwm
        · exact absurd hrest.1 hteam
        · exact ⟨w, hwm, hrest⟩

/-- C5: `has_item(item, team="player")` returns `True` exactly when the
player convoy, or the inventory of some player-team unit, contains an item
whose uid or nid equals the resolved item reference. -/
theorem has_item_player_iff (g : GameState) (item : Ref) (hwf : g.WFNids) :
    (has_item g item none (some "player") none none = Except.ok true) ↔
      ((∃ it ∈ g.convoy, NidVal.u it.uid = resolve_to_nid item ∨
          NidVal.n it.nid = resolve_to_nid item) ∨
        ∃ u ∈ g.units, u.team = "player" ∧
          ∃ it ∈ u.items, NidVal.u it.uid = resolve_to_nid item ∨
            NidVal.n it.nid = resolve_to_nid item) := by
  have hform : has_item g item none (some "player") none none =
      (if (!g.convoy.isEmpty &&
            g.convoy.any (fun it => itemMatches it (resolve_to_nid item))) = true
        then Except.ok true
        else has_item_loop g (resolve_to_nid item) none (some "player") none
          g.units) := by
    simp [has_item, truthyStr, get_all_units]
  rw [hform]
  by_cases hc : ∃ it ∈ g.convoy, itemMatches it (resolve_to_nid item) = true
  · have hne : g.convoy.isEmpty = false := by
      rcases hc with ⟨it, hit, _⟩
      cases hcv : g.convoy with
      | nil => rw [hcv] at hit; exact absurd hit (List.not_mem_nil it)
      | cons a l => simp [List.isEmpty]
    rw [if_pos (by rw [hne]; simpa [List.any_eq_true] using hc)]
    refine iff_of_true rfl (Or.inl ?_)
    rcases hc with ⟨it, hit, hm⟩
    exact ⟨it, hit, (itemMatches_iff it _).mp hm⟩
  · rw [if_neg (by
      intro hcontra
      rcases Bool.and_eq_true_iff.mp hcontra with ⟨_, hany⟩
      exact hc (by simpa [List.any_eq_true] using hany))]
    rw [has_item_loop_player_iff g hwf _ g.units (fun u hu => hu)]
    constructor
    · rintro ⟨u, hu, ht, it, hit, hm⟩
      exact Or.inr ⟨u, hu, ht, it, hit, (itemMatches_iff it _).mp hm⟩
    · rintro (⟨it, hit, hm⟩ | ⟨u, hu, ht, it, hit, hm⟩)
      · exact absurd ⟨it, hit, (itemMatches_iff it _).mpr hm⟩ hc
      · exact ⟨u, hu, ht, it, hit, (itemMatches_iff it _).mpr hm⟩

/-- C5 witness: in the concrete game, the player unit `eirika` holds the
item `rapier`, so `has_item` answers `True`. -/
theorem has_item_player_iff_witness :
    has_item gameW (Ref.val (NidVal.n "rapier")) none (some "player") none
      none = Except.ok true :=
  (has_item_player_iff gameW (Ref.val (NidVal.n "rapier"))
    (by decide)).mpr (by decide)

/-! ## C6: `get_closest_allies` -/

theorem filter_orderedInsert (d : ℕ) (x : UnitObject × ℕ)
    (l : List (UnitObject × ℕ)) :
    (List.orderedInsert (fun a b => a.2 ≤ b.2) x l).filter
        (fun pr => pr.2 = d) =
      if x.2 = d then x :: l.filter (fun pr => pr.2 = d)
      else l.filter (fun pr => pr.2 = d) := by
  induction l with
  | nil =>
    by_cases hx : x.2 = d <;> simp [List.filter_cons, hx]
  | cons y ys ih =>
    show (if x.2 ≤ y.2 then x :: y :: ys
      else y :: List.orderedInsert (fun a b => a.2 ≤ b.2) x ys).filter
        (fun pr => pr.2 = d) = _
    by_cases hr : x.2 ≤ y.2
    · rw [if_pos hr]
      by_cases hx : x.2 = d <;> simp [List.filter_cons, hx]
    · rw [if_neg hr]
      by_cases hx : x.2 = d
      · have hyd : ¬y.2 = d := by omega
        simp [List.filter_cons, hx, hyd, ih]
      · simp [List.filter_cons, hx, ih]

theorem filter_insertionSort (d : ℕ) (l : List (UnitObject × ℕ)) :
    (List.insertionSort (fun a b => a.2 ≤ b.2) l).filter
        (fun pr => pr.2 = d) =
      l.filter (fun pr => pr.2 = d) := by
  induction l with
  | nil => rfl
  | cons x xs ih =>
    show (List.orderedInsert (fun a b => a.2 ≤ b.2) x
      (List.insertionSort (fun a b => a.2 ≤ b.2) xs)).filter
        (fun pr => pr.2 = d) = _
    rw [filter_orderedInsert, List.filter_cons, ih]
    by_cases hx : x.2 = d <;> simp [hx]

theorem filter_take_prefix {α : Type} (p : α → Bool) :
    ∀ (n : ℕ) (l : List α), (l.take n).filter p <+: l.filter p := by
  intro n l
  induction l generalizing n with
  | nil => simp
  | cons a l ih =>
    cases n with
    | zero => simp
    | succ n =>
      rw [List.take_succ_cons, List.filter_cons, List.filter_cons]
      by_cases hp : p a
      · rw [if_pos hp, if_pos hp]
        rcases ih n with ⟨t, ht⟩
        exact ⟨t, by rw [List.cons_append, ht]⟩
      · rw [if_neg hp, if_neg hp]
        exact ih n

/-- C6: `get_closest_allies` succeeds when the position argument resolves;
it returns `min num #players` pairs, sorted by ascending distance; for every
distance, the returned pairs at that distance form a prefix of the
player-catalog-ordered pairs at that distance (stable tie-breaking); and it
returns one pair per player unit when no more than `num` player units
exist. -/
theorem get_closest_allies_spec (g : GameState) (p : PosRef) (num : ℕ)
    (q : ℤ × ℤ) (hres : resolve_pos g p = PosRef.coord q) :
    ∃ res, get_closest_allies g p num = Except.ok res ∧
      res.length = min num (get_player_units g).length ∧
      List.Sorted (fun a b => a.2 ≤ b.2) res ∧
      (∀ d : ℕ, res.filter (fun pr => pr.2 = d) <+:
        (allyDistPairs g q).filter (fun pr => pr.2 = d)) ∧
      ((get_player_units g).length ≤ num →
        List.Perm res (allyDistPairs g q)) := by
  refine ⟨(List.insertionSort (fun a b => a.2 ≤ b.2)
    (allyDistPairs g q)).take num, ?_, ?_, ?_, ?_, ?_⟩
  · simp [get_closest_allies, hres]
  · rw [List.length_take, List.length_insertionSort]
    simp [allyDistPairs]
  · exact List.Pairwise.sublist (List.take_sublist _ _)
      (List.sorted_insertionSort _ _)
  · intro d
    have h1 := filter_take_prefix (fun pr => decide (pr.2 = d)) num
      (List.insertionSort (fun a b => a.2 ≤ b.2) (allyDistPairs g q))
    rw [filter_insertionSort] at h1
    exact h1
  · intro hle
    rw [List.take_of_length_le
      (by rw [List.length_insertionSort]; simpa [allyDistPairs] using hle)]
    exact List.perm_insertionSort _ _

/-- C6 witness: the theorem instantiated at the concrete game, position
`(0, 0)` and `num = 2`. -/
theorem get_closest_allies_spec_witness :
    ∃ res, get_closest_allies gameW (PosRef.coord (0, 0)) 2 = Except.ok res ∧
      res.length = min 2 (get_player_units gameW).length ∧
      List.Sorted (fun a b => a.2 ≤ b.2) res ∧
      (∀ d : ℕ, res.filter (fun pr => pr.2 = d) <+:
        (allyDistPairs gameW (0, 0)).filter (fun pr => pr.2 = d)) ∧
      ((get_player_units gameW).length ≤ 2 →
        List.Perm res (allyDistPairs gameW (0, 0))) :=
  get_closest_allies_spec gameW (PosRef.coord (0, 0)) 2 (0, 0) (by decide)

/-! ## C9: the region-interrupt scan -/

theorem pyRound_intCast (n : ℤ) : pyRound ((n : ℚ)) = n := by
  simp only [pyRound, Rat.intCast_num, Rat.intCast_den, Int.natCast_one]
  have h1 : Int.ediv n 1 = n := Int.ediv_one n
  rw [h1]
  have h2 : 2 * (n - n * 1) = 0 := by ring
  rw [h2]
  norm_num

/-- C9 counterexample: in the concrete scenario the roam unit (id 1)
stands on tile `(2, 2)`, which an `interrupt_move` region covers and unit 7
occupies; after the scan, unit 7 still occupies `(2, 2)` (the occupant was
NOT relocated), while the roam unit was moved to the nearest open tile
`(3, 2)` and arrived there; the relocated position was also the one passed
to the trigger. -/
theorem regionScan_occupant_not_relocated :
    (regionScan cxEnv [cxRegion] cxScanState).map
        (fun st => (st.board (2, 2), st.board (3, 2), st.removed, st.fired)) =
      Except.ok (some 7, some 1, ["intr"],
        [("intr", (((3 : ℤ) : ℚ), ((2 : ℤ) : ℚ)))]) ∧
    cxEnv.rat.nearestOpen 7 cxScanState.board (2, 2) ≠ (2, 2) := by
  constructor
  · rfl
  · decide

/-- C9 (amended): when the rounded position lies in an `interrupt_move`
region whose tile another unit occupies, the ROAM unit (not the occupant) is
relocated to the occupant's nearest open tile before the region trigger is
fired with that relocated position; the occupant keeps its tile; and an
only-once region is removed exactly when its trigger actually fired. -/
theorem regionScan_interrupt_spec (env : ScanEnv) (r : EventRegion)
    (st : ScanState) (ru : RoamUnitSt) (occ : ℕ)
    (hroam : st.roam = some ru)
    (hocc : st.board st.rounded = some occ)
    (hc : r.contains st.rounded = true) (hi : r.interrupt_move = true)
    (ht : st.targets = []) (hf : st.fired = []) (hrem : st.removed = [])
    (hopen : st.board (env.rat.nearestOpen occ st.board st.rounded) = none) :
    ∃ st', regionScan env [r] st = Except.ok st' ∧
      st'.fired = [(r.nid,
        (((env.rat.nearestOpen occ st.board st.rounded).1 : ℚ),
         ((env.rat.nearestOpen occ st.board st.rounded).2 : ℚ)))] ∧
      st'.board st.rounded = some occ ∧
      (r.nid ∈ st'.removed ↔ r.only_once = true ∧
        env.trigger r.nid
          (((env.rat.nearestOpen occ st.board st.rounded).1 : ℚ),
           ((env.rat.nearestOpen occ st.board st.rounded).2 : ℚ)) = true) := by
  set t := env.rat.nearestOpen occ st.board st.rounded with htdef
  have htne : t ≠ st.rounded := by
    intro he
    rw [he, hocc] at hopen
    exact Option.noConfusion hopen
  have hboard : (rationalize env.rat
      ⟨⟨ru.id, ((t.1 : ℚ), (t.2 : ℚ))⟩, [], st.board⟩).board st.rounded =
      some occ := by
    unfold rationalize
    simp only [pyRound_intCast]
    rw [show ((t.1, t.2) : ℤ × ℤ) = t from rfl]
    rw [hopen]
    simp only [List.foldl_nil, arrive]
    rw [if_neg (Ne.symm htne)]
    exact hocc
  cases hdid : env.trigger r.nid ((t.1 : ℚ), (t.2 : ℚ)) with
  | false =>
    have hstep : regionScanStep env st r = Except.ok
        (⟨t, some ⟨ru.id, ((t.1 : ℚ), (t.2 : ℚ))⟩, st.targets, st.board,
          st.fired ++ [(r.nid, ((t.1 : ℚ), (t.2 : ℚ)))], st.removed⟩ :
          ScanState) := by
      unfold regionScanStep
      rw [if_pos (by rw [hc, hi]; rfl)]
      simp only [← htdef, hocc, hroam, hdid]
      simp
    refine ⟨⟨t, some ⟨ru.id, ((t.1 : ℚ), (t.2 : ℚ))⟩, st.targets, st.board,
      st.fired ++ [(r.nid, ((t.1 : ℚ), (t.2 : ℚ)))], st.removed⟩,
      ?_, ?_, ?_, ?_⟩
    · simp only [regionScan, hstep]
    · simp [hf]
    · exact hocc
    · simp [hrem, hdid]
  | true =>
    have hstep : regionScanStep env st r = Except.ok
        (⟨t, none,
          (rationalize env.rat ⟨⟨ru.id, ((t.1 : ℚ), (t.2 : ℚ))⟩, st.targets,
            st.board⟩).targets,
          (rationalize env.rat ⟨⟨ru.id, ((t.1 : ℚ), (t.2 : ℚ))⟩, st.targets,
            st.board⟩).board,
          st.fired ++ [(r.nid, ((t.1 : ℚ), (t.2 : ℚ)))],
          if r.only_once = true then st.removed ++ [r.nid] else st.removed⟩ :
          ScanState) := by
      unfold regionScanStep
      rw [if_pos (by rw [hc, hi]; rfl)]
      simp only [← htdef, hocc, hroam, hdid]
      cases ho : r.only_once <;> simp [ho]
    refine ⟨⟨t, none,
      (rationalize env.rat ⟨⟨ru.id, ((t.1 : ℚ), (t.2 : ℚ))⟩, st.targets,
        st.board⟩).targets,
      (rationalize env.rat ⟨⟨ru.id, ((t.1 : ℚ), (t.2 : ℚ))⟩, st.targets,
        st.board⟩).board,
      st.fired ++ [(r.nid, ((t.1 : ℚ), (t.2 : ℚ)))],
      if r.only_once = true then st.removed ++ [r.nid] else st.removed⟩,
      ?_, ?_, ?_, ?_⟩
    · simp only [regionScan, hstep]
    · simp [hf]
    · show (rationalize env.rat ⟨⟨ru.id, ((t.1 : ℚ), (t.2 : ℚ))⟩, st.targets,
        st.board⟩).board st.rounded = some occ
      rw [ht]
      exact hboard
    · simp only [hdid, and_true]
      cases ho : r.only_once <;> simp [ho, hrem]

/-- C9 witness: the amended theorem instantiated at the concrete interrupt
scenario. -/
theorem regionScan_interrupt_spec_witness :
    ∃ st', regionScan cxEnv [cxRegion] cxScanState = Except.ok st' ∧
      st'.fired = [(cxRegion.nid,
        (((cxEnv.rat.nearestOpen 7 cxScanState.board cxScanState.rounded).1 : ℚ),
         ((cxEnv.rat.nearestOpen 7 cxScanState.board cxScanState.rounded).2 : ℚ)))] ∧
      st'.board cxScanState.rounded = some 7 ∧
      (cxRegion.nid ∈ st'.removed ↔ cxRegion.only_once = true ∧
        cxEnv.trigger cxRegion.nid
          (((cxEnv.rat.nearestOpen 7 cxScanState.board cxScanState.rounded).1 : ℚ),
           ((cxEnv.rat.nearestOpen 7 cxScanState.board cxScanState.rounded).2 : ℚ)) = true) :=
  regionScan_interrupt_spec cxEnv cxRegion cxScanState ⟨1, (2, 2)⟩ 7
    (by decide) (by decide) (by decide) (by decide) (by decide) (by decide)
    (by decide) (by decide)

/-! ## C3: roam passability -/

theorem can_move_mcost_false (e : RoamEnv) (s : RoamMoveState) (d : String)
    (hd : d = "LEFT" ∨ d = "RIGHT" ∨ d = "UP" ∨ d = "DOWN")
    (h : 99 ≤ e.mcost (checkTile s d)) : can_move e s d = false := by
  show (if d = "LEFT" ∨ d = "RIGHT" ∨ d = "UP" ∨ d = "DOWN" then
      decide (e.mcost (checkTile s d) < 99) &&
        no_bumps e s (checkTile s d).1 (checkTile s d).2
    else true) = false
  rw [if_pos hd]
  have h1 : decide (e.mcost (checkTile s d) < 99) = false := by
    rw [decide_eq_false_iff_not]
    omega
  rw [h1, Bool.false_and]

theorem no_bumps_enemy_false (e : RoamEnv) (s : RoamMoveState) (x y : ℤ)
    (uid : ℕ) (tn : String)
    (hu : e.boardUnit (x, y) = some uid)
    (htm : e.boardTeam (x, y) = some tn) (hne : tn ≠ "")
    (hcmp : e.compareTeams s.team tn = false) :
    no_bumps e s x y = false := by
  unfold no_bumps
  simp only [hu, htm]
  rw [if_neg hne]
  exact hcmp

theorem can_move_enemy_false (e : RoamEnv) (s : RoamMoveState) (d : String)
    (hd : d = "LEFT" ∨ d = "RIGHT" ∨ d = "UP" ∨ d = "DOWN")
    (uid : ℕ) (tn : String)
    (hu : e.boardUnit (checkTile s d) = some uid)
    (htm : e.boardTeam (checkTile s d) = some tn) (hne : tn ≠ "")
    (hcmp : e.compareTeams s.team tn = false) : can_move e s d = false := by
  show (if d = "LEFT" ∨ d = "RIGHT" ∨ d = "UP" ∨ d = "DOWN" then
      decide (e.mcost (checkTile s d) < 99) &&
        no_bumps e s (checkTile s d).1 (checkTile s d).2
    else true) = false
  rw [if_pos hd]
  have h1 : no_bumps e s (checkTile s d).1 (checkTile s d).2 = false :=
    no_bumps_enemy_false e s _ _ uid tn hu htm hne hcmp
  rw [h1, Bool.and_false]

theorem dirUpdate_fst_nonneg (e : RoamEnv) (s : RoamMoveState)
    (hR : e.pressed "RIGHT" = true) (hL : e.pressed "LEFT" = false)
    (hjL : e.justPressed "LEFT" = false) (hd : 0 ≤ s.dir.1) :
    0 ≤ (dirUpdate e s).1 := by
  simp [dirUpdate, hR, hL, hjL, decide_eq_true_eq]
  split_ifs <;> omega

theorem dirUpdate_fst_nonpos (e : RoamEnv) (s : RoamMoveState)
    (hL : e.pressed "LEFT" = true) (hR : e.pressed "RIGHT" = false)
    (hjR : e.justPressed "RIGHT" = false) (hd : s.dir.1 ≤ 0) :
    (dirUpdate e s).1 ≤ 0 := by
  simp [dirUpdate, hR, hL, hjR, decide_eq_true_eq]
  split_ifs <;> omega

theorem dirUpdate_snd_nonneg (e : RoamEnv) (s : RoamMoveState)
    (hD : e.pressed "DOWN" = true) (hU : e.pressed "UP" = false)
    (hjU : e.justPressed "UP" = false) (hd : 0 ≤ s.dir.2) :
    0 ≤ (dirUpdate e s).2 := by
  simp [dirUpdate, hD, hU, hjU, decide_eq_true_eq]
  split_ifs <;> omega

theorem dirUpdate_snd_nonpos (e : RoamEnv) (s : RoamMoveState)
    (hU : e.pressed "UP" = true) (hD : e.pressed "DOWN" = false)
    (hjD : e.justPressed "DOWN" = false) (hd : s.dir.2 ≤ 0) :
    (dirUpdate e s).2 ≤ 0 := by
  simp [dirUpdate, hU, hD, hjD, decide_eq_true_eq]
  split_ifs <;> omega

theorem takeInputMove_fst_right (e : RoamEnv) (s : RoamMoveState)
    (hdir : 0 ≤ (dirUpdate e s).1) (hcm : can_move e s "RIGHT" = false) :
    (takeInputMove e s).pos.1 = s.pos.1 := by
  show (newRoamPos s (hvOf e s (dirUpdate e s))).1 = s.pos.1
  have h1 : (hvOf e s (dirUpdate e s)).1 = 0 := by
    show (if 0 < (dirUpdate e s).1 ∧ can_move e s "RIGHT" = true then s.speed
      else if (dirUpdate e s).1 < 0 ∧ can_move e s "LEFT" = true then -s.speed
      else 0) = 0
    rw [if_neg (by rw [hcm]; rintro ⟨_, h⟩; exact Bool.false_ne_true h)]
    rw [if_neg (by rintro ⟨h, _⟩; omega)]
  unfold newRoamPos
  split_ifs with h2
  · simp [h1]
  · rfl

theorem takeInputMove_fst_left (e : RoamEnv) (s : RoamMoveState)
    (hdir : (dirUpdate e s).1 ≤ 0) (hcm : can_move e s "LEFT" = false) :
    (takeInputMove e s).pos.1 = s.pos.1 := by
  show (newRoamPos s (hvOf e s (dirUpdate e s))).1 = s.pos.1
  have h1 : (hvOf e s (dirUpdate e s)).1 = 0 := by
    show (if 0 < (dirUpdate e s).1 ∧ can_move e s "RIGHT" = true then s.speed
      else if (dirUpdate e s).1 < 0 ∧ can_move e s "LEFT" = true then -s.speed
      else 0) = 0
    rw [if_neg (by rintro ⟨h, _⟩; omega)]
    rw [if_neg (by rw [hcm]; rintro ⟨_, h⟩; exact Bool.false_ne_true h)]
  unfold newRoamPos
  split_ifs with h2
  · simp [h1]
  · rfl

theorem takeInputMove_snd_down (e : RoamEnv) (s : RoamMoveState)
    (hdir : 0 ≤ (dirUpdate e s).2) (hcm : can_move e s "DOWN" = false) :
    (takeInputMove e s).pos.2 = s.pos.2 := by
  show (newRoamPos s (hvOf e s (dirUpdate e s))).2 = s.pos.2
  have h1 : (hvOf e s (dirUpdate e s)).2 = 0 := by
    show (if 0 < (dirUpdate e s).2 ∧ can_move e s "DOWN" = true then s.speed
      else if (dirUpdate e s).2 < 0 ∧ can_move e s "UP" = true then -s.speed
      else 0) = 0
    rw [if_neg (by rw [hcm]; rintro ⟨_, h⟩; exact Bool.false_ne_true h)]
    rw [if_neg (by rintro ⟨h, _⟩; omega)]
  unfold newRoamPos
  split_ifs with h2
  · simp [h1]
  · rfl

theorem takeInputMove_snd_up (e : RoamEnv) (s : RoamMoveState)
    (hdir : (dirUpdate e s).2 ≤ 0) (hcm : can_move e s "UP" = false) :
    (takeInputMove e s).pos.2 = s.pos.2 := by
  show (newRoamPos s (hvOf e s (dirUpdate e s))).2 = s.pos.2
  have h1 : (hvOf e s (dirUpdate e s)).2 = 0 := by
    show (if 0 < (dirUpdate e s).2 ∧ can_move e s "DOWN" = true then s.speed
      else if (dirUpdate e s).2 < 0 ∧ can_move e s "UP" = true then -s.speed
      else 0) = 0
    rw [if_neg (by rintro ⟨h, _⟩; omega)]
    rw [if_neg (by rw [hcm]; rintro ⟨_, h⟩; exact Bool.false_ne_true h)]
  unfold newRoamPos
  split_ifs with h2
  · simp [h1]
  · rfl

/-- C3: during a roam tick, with a direction held (its opposite not held and
no residual momentum toward the opposite), a movement cost of 99 or more on
the checked tile in that direction leaves the position on that axis exactly
unchanged (first four conjuncts); an enemy-occupied checked tile in the held
direction likewise blocks the axis (next four); and an ally-occupied tile
never blocks: passability then reduces to the movement-cost test alone
(last conjunct). -/
theorem roam_blocked_movement_spec (e : RoamEnv) (s : RoamMoveState) :
    (e.pressed "RIGHT" = true → e.pressed "LEFT" = false →
      e.justPressed "LEFT" = false → 0 ≤ s.dir.1 →
      99 ≤ e.mcost (checkTile s "RIGHT") →
      (takeInputMove e s).pos.1 = s.pos.1) ∧
    (e.pressed "LEFT" = true → e.pressed "RIGHT" = false →
      e.justPressed "RIGHT" = false → s.dir.1 ≤ 0 →
      99 ≤ e.mcost (checkTile s "LEFT") →
      (takeInputMove e s).pos.1 = s.pos.1) ∧
    (e.pressed "DOWN" = true → e.pressed "UP" = false →
      e.justPressed "UP" = false → 0 ≤ s.dir.2 →
      99 ≤ e.mcost (checkTile s "DOWN") →
      (takeInputMove e s).pos.2 = s.pos.2) ∧
    (e.pressed "UP" = true → e.pressed "DOWN" = false →
      e.justPressed "DOWN" = false → s.dir.2 ≤ 0 →
      99 ≤ e.mcost (checkTile s "UP") →
      (takeInputMove e s).pos.2 = s.pos.2) ∧
    (∀ uid tn, e.pressed "RIGHT" = true → e.pressed "LEFT" = false →
      e.justPressed "LEFT" = false → 0 ≤ s.dir.1 →
      e.boardUnit (checkTile s "RIGHT") = some uid →
      e.boardTeam (checkTile s "RIGHT") = some tn → tn ≠ "" →
      e.compareTeams s.team tn = false →
      (takeInputMove e s).pos.1 = s.pos.1) ∧
    (∀ uid tn, e.pressed "LEFT" = true → e.pressed "RIGHT" = false →
      e.justPressed "RIGHT" = false → s.dir.1 ≤ 0 →
      e.boardUnit (checkTile s "LEFT") = some uid →
      e.boardTeam (checkTile s "LEFT") = some tn → tn ≠ "" →
      e.compareTeams s.team tn = false →
      (takeInputMove e s).pos.1 = s.pos.1) ∧
    (∀ uid tn, e.pressed "DOWN" = true → e.pressed "UP" = false →
      e.justPressed "UP" = false → 0 ≤ s.dir.2 →
      e.boardUnit (checkTile s "DOWN") = some uid →
      e.boardTeam (checkTile s "DOWN") = some tn → tn ≠ "" →
      e.compareTeams s.team tn = false →
      (takeInputMove e s).pos.2 = s.pos.2) ∧
    (∀ uid tn, e.pressed "UP" = true → e.pressed "DOWN" = false →
      e.justPressed "DOWN" = false → s.dir.2 ≤ 0 →
      e.boardUnit (checkTile s "UP") = some uid →
      e.boardTeam (checkTile s "UP") = some tn → tn ≠ "" →
      e.compareTeams s.team tn = false →
      (takeInputMove e s).pos.2 = s.pos.2) ∧
    (∀ d uid, (d = "LEFT" ∨ d = "RIGHT" ∨ d = "UP" ∨ d = "DOWN") →
      e.boardUnit (checkTile s d) = some uid →
      (e.boardTeam (checkTile s d) = none ∨
        e.boardTeam (checkTile s d) = some "" ∨
        ∃ tn, e.boardTeam (checkTile s d) = some tn ∧
          e.compareTeams s.team tn = true) →
      can_move e s d = decide (e.mcost (checkTile s d) < 99)) := by
  refine ⟨?_, ?_, ?_, ?_, ?_, ?_, ?_, ?_, ?_⟩
  · intro h1 h2 h3 h4 h5
    exact takeInputMove_fst_right e s (dirUpdate_fst_nonneg e s h1 h2 h3 h4)
      (can_move_mcost_false e s "RIGHT" (by simp) h5)
  · intro h1 h2 h3 h4 h5
    exact takeInputMove_fst_left e s (dirUpdate_fst_nonpos e s h1 h2 h3 h4)
      (can_move_mcost_false e s "LEFT" (by simp) h5)
  · intro h1 h2 h3 h4 h5
    exact takeInputMove_snd_down e s (dirUpdate_snd_nonneg e s h1 h2 h3 h4)
      (can_move_mcost_false e s "DOWN" (by simp) h5)
  · intro h1 h2 h3 h4 h5
    exact takeInputMove_snd_up e s (dirUpdate_snd_nonpos e s h1 h2 h3 h4)
      (can_move_mcost_false e s "UP" (by simp) h5)
  · intro uid tn h1 h2 h3 h4 h5 h6 h7 h8
    exact takeInputMove_fst_right e s (dirUpdate_fst_nonneg e s h1 h2 h3 h4)
      (can_move_enemy_false e s "RIGHT" (by simp) uid tn h5 h6 h7 h8)
  · intro uid tn h1 h2 h3 h4 h5 h6 h7 h8
    exact takeInputMove_fst_left e s (dirUpdate_fst_nonpos e s h1 h2 h3 h4)
      (can_move_enemy_false e s "LEFT" (by simp) uid tn h5 h6 h7 h8)
  · intro uid tn h1 h2 h3 h4 h5 h6 h7 h8
    exact takeInputMove_snd_down e s (dirUpdate_snd_nonneg e s h1 h2 h3 h4)
      (can_move_enemy_false e s "DOWN" (by simp) uid tn h5 h6 h7 h8)
  · intro uid tn h1 h2 h3 h4 h5 h6 h7 h8
    exact takeInputMove_snd_up e s (dirUpdate_snd_nonpos e s h1 h2 h3 h4)
      (can_move_enemy_false e s "UP" (by simp) uid tn h5 h6 h7 h8)
  · intro d uid hd hu hteam
    show (if d = "LEFT" ∨ d = "RIGHT" ∨ d = "UP" ∨ d = "DOWN" then
        decide (e.mcost (checkTile s d) < 99) &&
          no_bumps e s (checkTile s d).1 (checkTile s d).2
      else true) = decide (e.mcost (checkTile s d) < 99)
    rw [if_pos hd]
    have h1 : no_bumps e s (checkTile s d).1 (checkTile s d).2 = true := by
      unfold no_bumps
      simp only [hu]
      rcases hteam with h | h | ⟨tn, htn, hcmp⟩
      · simp [h]
      · simp [h]
      · simp only [htn]
        by_cases h2 : tn = "" <;> simp [h2, hcmp]
    rw [h1, Bool.and_true]

/-- C3 witness: in the concrete environment, `RIGHT` is held against an
impassable tile (first conjunct applied) so `x` does not change, and `DOWN`
is held against an enemy-occupied tile (seventh conjunct applied) so `y`
does not change; in the ally variant, passability in any direction reduces
to the movement-cost test (last conjunct applied). -/
theorem roam_blocked_movement_spec_witness :
    (takeInputMove roamEnvW roamStateW).pos.1 = roamStateW.pos.1 ∧
    (takeInputMove roamEnvW roamStateW).pos.2 = roamStateW.pos.2 ∧
    can_move roamEnvW2 roamStateW "LEFT" = false := by
  refine ⟨?_, ?_, ?_⟩
  · exact (roam_blocked_movement_spec roamEnvW roamStateW).1
      (by decide) (by decide) (by decide) (by decide) (by decide)
  · exact (roam_blocked_movement_spec roamEnvW roamStateW).2.2.2.2.2.2.1 9
      "enemy" (by decide) (by decide) (by decide) (by decide) (by decide)
      (by decide) (by decide) (by decide)
  · have h := (roam_blocked_movement_spec roamEnvW2 roamStateW).2.2.2.2.2.2.2.2
      "LEFT" 9 (by simp) (by decide)
      (Or.inr (Or.inr ⟨"player", by decide, by decide⟩))
    rw [h]
    decide

/-! ## C1: parse / render round trip -/

theorem splitFirstEq_append (k v : Token) (hk : '=' ∉ k) :
    splitFirstEq (k ++ '=' :: v) = some (k, v) := by
  induction k with
  | nil => simp [splitFirstEq]
  | cons c cs ih =>
    have hc : ¬c = '=' := fun he => hk (he ▸ List.mem_cons_self c cs)
    rw [List.cons_append, splitFirstEq, if_neg hc,
      ih (fun hm => hk (List.mem_cons_of_mem c hm))]
    rfl

theorem lookupVal_eq_some_iff (l : List (Token × Token))
    (hnd : (l.map Prod.fst).Nodup) (k v : Token) :
    lookupVal l k = some v ↔ (k, v) ∈ l := by
  induction l with
  | nil => simp [lookupVal]
  | cons p ps ih =>
    rw [List.map_cons, List.nodup_cons] at hnd
    rw [lookupVal]
    by_cases hk : p.1 = k
    · rw [if_pos hk]
      constructor
      · intro h
        have hpv : p = (k, v) := by
          simp only [Option.some.injEq] at h
          exact Prod.ext hk h
        rw [← hpv]
        exact List.mem_cons_self p ps
      · intro h
        rcases List.mem_cons.mp h with he | hm
        · rw [← he]
        · exact absurd (hk ▸ List.mem_map_of_mem Prod.fst hm) hnd.1
    · rw [if_neg hk]
      rw [ih hnd.2]
      constructor
      · exact fun h => List.mem_cons_of_mem p h
      · intro h
        rcases List.mem_cons.mp h with he | hm
        · exact absurd (congrArg Prod.fst he.symm) hk
        · exact hm

theorem lookupVal_eq_none_iff (l : List (Token × Token)) (k : Token) :
    lookupVal l k = none ↔ k ∉ l.map Prod.fst := by
  induction l with
  | nil => simp [lookupVal]
  | cons p ps ih =>
    rw [lookupVal, List.map_cons]
    by_cases hk : p.1 = k
    · simp [hk]
    · simp only [if_neg hk, ih, List.mem_cons]
      constructor
      · intro h
        rintro (he | hm)
        · exact hk he.symm
        · exact h hm
      · intro h hm
        exact h (Or.inr hm)

theorem foldl_push_eq_reverse :
    ∀ l acc : List (Token × Token),
      l.foldl (fun a p => (p.1, p.2) :: a) acc = l.reverse ++ acc := by
  intro l
  induction l with
  | nil => intro acc; simp
  | cons p ps ih =>
    intro acc
    rw [List.foldl_cons, ih, List.reverse_cons, List.append_assoc]
    rfl

theorem lookupVal_reverse (l : List (Token × Token))
    (hnd : (l.map Prod.fst).Nodup) (k : Token) :
    lookupVal l.reverse k = lookupVal l k := by
  have hndr : (l.reverse.map Prod.fst).Nodup := by
    rw [List.map_reverse]
    exact List.nodup_reverse.mpr hnd
  cases hl : lookupVal l k with
  | some v =>
    exact (lookupVal_eq_some_iff l.reverse hndr k v).mpr
      (List.mem_reverse.mpr ((lookupVal_eq_some_iff l hnd k v).mp hl))
  | none =>
    refine (lookupVal_eq_none_iff l.reverse k).mpr ?_
    rw [List.map_reverse]
    intro hm
    exact (lookupVal_eq_none_iff l k).mp hl (List.mem_reverse.mp hm)

theorem assignArgs_kv (cd : EventCommand) :
    ∀ (pairs : List (Token × Token)) (rest : List Token)
      (vals : List (Token × Token)) (fls : List Token),
      (∀ p ∈ pairs, p.1 ∈ allKeywords cd ∧ '=' ∉ p.1) →
      assignArgs cd (pairs.map (fun p => p.1 ++ '=' :: p.2) ++ rest) vals fls =
        assignArgs cd rest (pairs.foldl (fun a p => (p.1, p.2) :: a) vals) fls := by
  intro pairs
  induction pairs with
  | nil => intro rest vals fls _; simp
  | cons p ps ih =>
    intro rest vals fls hp
    have hp1 := hp p (List.mem_cons_self p ps)
    have hsp := splitFirstEq_append p.1 p.2 hp1.2
    rw [List.map_cons, List.cons_append]
    simp only [assignArgs, hsp]
    rw [if_pos hp1.1]
    rw [ih rest ((p.1, p.2) :: vals) fls
      (fun q hq => hp q (List.mem_cons_of_mem p hq))]
    rw [List.foldl_cons]

theorem assignArgs_flagTok (cd : EventCommand) :
    ∀ (fl : List Token) (vals : List (Token × Token)) (fls : List Token),
      (∀ f ∈ fl, FlagTok cd f) →
      assignArgs cd fl vals fls = (vals, fls ++ fl) := by
  intro fl
  induction fl with
  | nil => intro vals fls _; simp [assignArgs]
  | cons f fs ih =>
    intro vals fls hf
    have hf1 := hf f (List.mem_cons_self f fs)
    have hf2 : ∀ q ∈ fs, FlagTok cd q := fun q hq =>
      hf q (List.mem_cons_of_mem f hq)
    cases hsp : splitFirstEq f with
    | some kv =>
      obtain ⟨k, v⟩ := kv
      simp only [assignArgs, hsp]
      rw [if_neg (hf1.2 k v hsp), if_pos hf1.1, ih vals (fls ++ [f]) hf2]
      rw [List.append_assoc]
      rfl
    | none =>
      simp only [assignArgs, hsp]
      rw [if_pos hf1.1, ih vals (fls ++ [f]) hf2]
      rw [List.append_assoc]
      rfl

theorem flags_from_assignArgs (cd : EventCommand) :
    ∀ (ts : List Token) (vals : List (Token × Token)) (fls : List Token)
      (f : Token), f ∈ (assignArgs cd ts vals fls).2 →
      f ∈ fls ∨ FlagTok cd f := by
  intro ts
  induction ts with
  | nil =>
    intro vals fls f h
    simp only [assignArgs] at h
    exact Or.inl h
  | cons t ts ih =>
    intro vals fls f h
    cases hsp : splitFirstEq t with
    | some kv =>
      obtain ⟨k, v⟩ := kv
      simp only [assignArgs, hsp] at h
      by_cases hk : k ∈ allKeywords cd
      · rw [if_pos hk] at h
        exact ih _ _ _ h
      · rw [if_neg hk] at h
        by_cases hfl : t ∈ cd.flags
        · rw [if_pos hfl] at h
          rcases ih _ _ _ h with h1 | h2
          · rcases List.mem_append.mp h1 with h3 | h4
            · exact Or.inl h3
            · refine Or.inr ?_
              rw [List.mem_singleton.mp h4]
              refine ⟨hfl, fun k2 v2 hsp2 => ?_⟩
              rw [hsp] at hsp2
              obtain ⟨he1, he2⟩ := Prod.mk.injEq .. ▸
                Option.some.injEq .. ▸ hsp2
              exact (by
                have : k2 = k := by
                  have := hsp2
                  simp only [Option.some.injEq, Prod.mk.injEq] at this
                  exact this.1.symm
                rw [this]
                exact hk)
          · exact Or.inr h2
        · rw [if_neg hfl] at h
          cases hfu : firstUnfilled cd vals with
          | some kw => rw [hfu] at h; exact ih _ _ _ h
          | none => rw [hfu] at h; exact ih _ _ _ h
    | none =>
      simp only [assignArgs, hsp] at h
      by_cases hfl : t ∈ cd.flags
      · rw [if_pos hfl] at h
        rcases ih _ _ _ h with h1 | h2
        · rcases List.mem_append.mp h1 with h3 | h4
          · exact Or.inl h3
          · refine Or.inr ?_
            rw [List.mem_singleton.mp h4]
            refine ⟨hfl, fun k2 v2 hsp2 => ?_⟩
            rw [hsp] at hsp2
            exact absurd hsp2 (by simp)
        · exact Or.inr h2
      · rw [if_neg hfl] at h
        cases hfu : firstUnfilled cd vals with
        | some kw => rw [hfu] at h; exact ih _ _ _ h
        | none => rw [hfu] at h; exact ih _ _ _ h

theorem canon_mem (cd : EventCommand) (vals : List (Token × Token))
    (p : Token × Token) (hp : p ∈ canonValues cd vals) :
    p.1 ∈ allKeywords cd ∧ lookupVal vals p.1 = some p.2 := by
  unfold canonValues at hp
  rcases List.mem_filterMap.mp hp with ⟨k, hk, hmap⟩
  cases hv : lookupVal vals k with
  | none => rw [hv] at hmap; exact Option.noConfusion hmap
  | some v =>
    rw [hv] at hmap
    simp only [Option.map_some', Option.some.injEq] at hmap
    rw [← hmap]
    exact ⟨hk, hv⟩

theorem lookup_keys_sublist (vals : List (Token × Token)) :
    ∀ ks : List Token,
      List.Sublist
        ((ks.filterMap
          (fun k => (lookupVal vals k).map (fun v => (k, v)))).map Prod.fst)
        ks := by
  intro ks
  induction ks with
  | nil => simp
  | cons k0 ks ih =>
    rw [List.filterMap_cons]
    cases h : lookupVal vals k0 with
    | none =>
      simp only [Option.map_none']
      exact ih.cons k0
    | some v =>
      simp only [Option.map_some', List.map_cons]
      exact ih.cons₂ k0

theorem canon_keys_nodup (cd : EventCommand) (vals : List (Token × Token))
    (hnd : (allKeywords cd).Nodup) :
    ((canonValues cd vals).map Prod.fst).Nodup :=
  List.Nodup.sublist (lookup_keys_sublist vals (allKeywords cd)) hnd

theorem lookup_filterMap_keys (vals : List (Token × Token)) :
    ∀ ks : List Token, ks.Nodup → ∀ k : Token,
      lookupVal
        (ks.filterMap (fun k0 => (lookupVal vals k0).map (fun v => (k0, v))))
        k = if k ∈ ks then lookupVal vals k else none := by
  intro ks
  induction ks with
  | nil => intro _ k; simp [lookupVal]
  | cons k0 ks ih =>
    intro hnd k
    rw [List.nodup_cons] at hnd
    rw [List.filterMap_cons]
    cases h0 : lookupVal vals k0 with
    | none =>
      simp only [Option.map_none']
      rw [ih hnd.2 k]
      by_cases hk : k = k0
      · subst hk
        rw [if_neg hnd.1, if_pos (List.mem_cons_self k ks)]
        exact h0.symm
      · by_cases hk2 : k ∈ ks
        · rw [if_pos hk2, if_pos (List.mem_cons_of_mem k0 hk2)]
        · rw [if_neg hk2, if_neg (by
            intro hmem
            rcases List.mem_cons.mp hmem with h | h
            · exact hk h
            · exact hk2 h)]
    | some v =>
      simp only [Option.map_some']
      rw [lookupVal]
      by_cases hk : k0 = k
      · rw [if_pos hk]
        subst hk
        rw [if_pos (List.mem_cons_self k0 ks)]
        exact h0.symm
      · rw [if_neg hk]
        rw [ih hnd.2 k]
        by_cases hk2 : k ∈ ks
        · rw [if_pos hk2, if_pos (List.mem_cons_of_mem k0 hk2)]
        · rw [if_neg hk2, if_neg (by
            intro hmem
            rcases List.mem_cons.mp hmem with h | h
            · exact hk h.symm
            · exact hk2 h)]

theorem lookup_canon (cd : EventCommand) (vals : List (Token × Token))
    (hnd : (allKeywords cd).Nodup) (k : Token) :
    lookupVal (canonValues cd vals) k =
      if k ∈ allKeywords cd then lookupVal vals k else none :=
  lookup_filterMap_keys vals (allKeywords cd) hnd k

theorem canon_congr (cd : EventCommand) (vals1 vals2 : List (Token × Token))
    (h : ∀ k ∈ allKeywords cd, lookupVal vals1 k = lookupVal vals2 k) :
    canonValues cd vals1 = canonValues cd vals2 := by
  unfold canonValues
  have haux : ∀ ks : List Token,
      (∀ k ∈ ks, lookupVal vals1 k = lookupVal vals2 k) →
      ks.filterMap (fun k => (lookupVal vals1 k).map (fun v => (k, v))) =
        ks.filterMap (fun k => (lookupVal vals2 k).map (fun v => (k, v))) := by
    intro ks
    induction ks with
    | nil => intro _; rfl
    | cons k0 ks ih =>
      intro hks
      rw [List.filterMap_cons, List.filterMap_cons,
        hks k0 (List.mem_cons_self k0 ks),
        ih (fun q hq => hks q (List.mem_cons_of_mem k0 hq))]
  exact haux (allKeywords cd) h

theorem canon_idem (cd : EventCommand) (vals : List (Token × Token))
    (hnd : (allKeywords cd).Nodup) :
    canonValues cd (canonValues cd vals) = canonValues cd vals :=
  canon_congr cd _ _ (fun k hk => by rw [lookup_canon cd vals hnd k, if_pos hk])

/-- C1: any command produced by the strict parser renders back through
`to_plain_text` to a line that re-parses to the very same command — same
name, same keyword-to-value mapping, same active flags (so
`parse(render(parse(line))) = parse(line)` for every parseable line), for
any catalog whose declared keywords are distinct identifiers without
`=`. -/
theorem parse_render_roundtrip (catalog : List EventCommand)
    (hwf : ∀ cd ∈ catalog, CmdWF cd) (ts : List Token) (c : EventCommand)
    (e : Option ℕ) (h : parse_text_to_command catalog ts = (some c, e)) :
    parse_text_to_command catalog (to_plain_text c) = (some c, none) := by
  cases ts with
  | nil =>
    rw [parse_text_to_command] at h
    exact absurd (congrArg Prod.fst h) (by simp)
  | cons t0 rest =>
    rw [parse_text_to_command] at h
    cases hfind : findCommand catalog t0 with
    | none =>
      rw [hfind] at h
      exact absurd (congrArg Prod.fst h) (by simp)
    | some cd =>
      rw [hfind] at h
      cases hreq : cd.keywords.find?
          (fun k => (lookupVal (assignArgs cd rest [] []).1 k).isNone) with
      | some k =>
        simp only [hreq] at h
        exact absurd (congrArg Prod.fst h) (by simp)
      | none =>
        simp only [hreq] at h
        have hc : { cd with
            values := canonValues cd (assignArgs cd rest [] []).1,
            active_flags := (assignArgs cd rest [] []).2 } = c :=
          Option.some.inj (congrArg Prod.fst h)
        have hmem : cd ∈ catalog := List.mem_of_find?_eq_some hfind
        have hnid : cd.nid = t0 := by
          have := List.find?_some hfind
          simpa using this
        obtain ⟨hnd, heqchar⟩ := hwf cd hmem
        subst hc
        set va1 := (assignArgs cd rest [] []).1 with hva1
        set fl := (assignArgs cd rest [] []).2 with hfl
        have hkv : ∀ p ∈ canonValues cd va1,
            p.1 ∈ allKeywords cd ∧ '=' ∉ p.1 := fun p hp =>
          ⟨(canon_mem cd va1 p hp).1, heqchar p.1 (canon_mem cd va1 p hp).1⟩
        have hflags : ∀ f ∈ fl, FlagTok cd f := fun f hf =>
          (flags_from_assignArgs cd rest [] [] f hf).resolve_left
            (List.not_mem_nil f)
        have hassign : assignArgs cd
            ((canonValues cd va1).map (fun p => p.1 ++ '=' :: p.2) ++ fl)
            [] [] =
            ((canonValues cd va1).foldl (fun a p => (p.1, p.2) :: a) [], fl) := by
          rw [assignArgs_kv cd (canonValues cd va1) fl [] [] hkv,
            assignArgs_flagTok cd fl _ [] hflags]
          rfl
        have hR : (canonValues cd va1).foldl (fun a p => (p.1, p.2) :: a) [] =
            (canonValues cd va1).reverse := by
          rw [foldl_push_eq_reverse, List.append_nil]
        have hlookR : ∀ k1 : Token,
            lookupVal
              ((canonValues cd va1).foldl (fun a p => (p.1, p.2) :: a) [])
              k1 = lookupVal (canonValues cd va1) k1 := by
          intro k1
          rw [hR]
          exact lookupVal_reverse (canonValues cd va1)
            (canon_keys_nodup cd va1 hnd) k1
        have hreq2 : cd.keywords.find? (fun k =>
            (lookupVal
              ((canonValues cd va1).foldl (fun a p => (p.1, p.2) :: a) [])
              k).isNone) = none := by
          apply List.find?_eq_none.mpr
          intro k1 hk1
          have h3 := List.find?_eq_none.mp hreq k1 hk1
          have hk2 : k1 ∈ allKeywords cd := by
            unfold allKeywords
            exact List.mem_append_left cd.optional_keywords hk1
          rw [hlookR k1, lookup_canon cd va1 hnd k1, if_pos hk2]
          exact h3
        have hcanonR : canonValues cd
            ((canonValues cd va1).foldl (fun a p => (p.1, p.2) :: a) []) =
            canonValues cd va1 := by
          rw [canon_congr cd _ (canonValues cd va1) (fun k1 _ => hlookR k1)]
          exact canon_idem cd va1 hnd
        show parse_text_to_command catalog
          (cd.nid :: ((canonValues cd va1).map (fun p => p.1 ++ '=' :: p.2)
            ++ fl)) = _
        rw [parse_text_to_command, hnid, hfind]
        simp only [hassign, hreq2, hcanonR]
        rw [hnid]

/-- C1 witness: the round trip at the concrete line
`speak;eirika;text=hi;FLAG` against the concrete catalog. -/
theorem parse_render_roundtrip_witness :
    parse_text_to_command catW (to_plain_text cmdW) = (some cmdW, none) :=
  parse_render_roundtrip catW (by decide)
    [tk "speak", tk "eirika", tk "text=hi", tk "FLAG"] cmdW none (by decide)

/-! ## C8: validation of a line with a missing required keyword -/

/-- C8 (amended): when the command name resolves but a required keyword is
missing, the strict parse fails with the argument index expected to hold the
first missing required keyword, and `validate_tokens` reports the token
index of that expected argument (`error_loc + 1`) — except when that
argument index is 0, where Python's falsy `elif error_loc:` collapses the
report to the `[0]` first-broken-argument sentinel (the command-name
token). -/
theorem validate_tokens_missing_keyword (catalog : List EventCommand)
    (vOk : Token → Token → Bool) (t0 : Token) (rest : List Token)
    (cd : EventCommand) (k : Token)
    (hfind : findCommand catalog t0 = some cd)
    (hmiss : cd.keywords.find?
      (fun kw => (lookupVal (assignArgs cd rest [] []).1 kw).isNone) =
        some k) :
    validate_tokens catalog vOk (t0 :: rest) =
      ValidationResult.locs
        [if argIndexOfKeyword cd k = 0 then 0
         else argIndexOfKeyword cd k + 1] := by
  have hp : parse_text_to_command catalog (t0 :: rest) =
      (none, some (argIndexOfKeyword cd k)) := by
    rw [parse_text_to_command, hfind]
    simp only [hmiss]
  unfold validate_tokens
  simp only [hp]
  by_cases h0 : argIndexOfKeyword cd k = 0 <;> simp [h0]

/-- C8 counterexample: for the command `foo` with single required keyword
`a` (argument index 0, hence expected token index 1), the bare line `foo`
is reported as `[0]` — the command-name token — not as the expected-argument
token `[1]` the claim describes. -/
theorem validate_tokens_first_keyword_sentinel :
    validate_tokens cat0 (fun _ _ => true) [tk "foo"] =
      ValidationResult.locs [0] ∧
    argIndexOfKeyword ⟨tk "foo", [tk "a"], [], [], [], []⟩ (tk "a") + 1 = 1 ∧
    ValidationResult.locs [0] ≠ ValidationResult.locs [1] := by
  refine ⟨by decide, by decide, by decide⟩

/-- C8 witness: against the concrete catalog, `speak;eirika` is missing the
required keyword `text` at argument index 1, and validation points at token
index 2. -/
theorem validate_tokens_missing_keyword_witness :
    validate_tokens catW (fun _ _ => true) [tk "speak", tk "eirika"] =
      ValidationResult.locs [2] := by
  have h := validate_tokens_missing_keyword catW (fun _ _ => true)
    (tk "speak") [tk "eirika"]
    ⟨tk "speak", [tk "speaker", tk "text"], [tk "style"], [tk "FLAG"], [], []⟩
    (tk "text") (by decide) (by decide)
  rw [h]
  decide

end FE
